import Mathlib

/-!
Verification development for the Kubernetes management backend:
the configuration engine (`kubernetes_service_enhanced.py`), the cache
store (`cache_manager.py`) and the batch orchestrator
(`server_enhanced.py`), shallowly embedded in Lean.

Configuration trees (Python nested dicts) are embedded as the
recursive `JValue` type; Python `dict`s become insertion-ordered
association lists (`List (String × JValue)`) with lookup on the first
occurrence, in-place update of an existing key and append for a fresh
key, which matches CPython dict semantics for the unique-key dicts the
program manipulates.
-/

/-- A Python value as manipulated by the configuration engine:
scalars, lists, and string-keyed dicts. -/
inductive JValue where
  | null : JValue
  | bool : Bool → JValue
  | num : Int → JValue
  | str : String → JValue
  | arr : List JValue → JValue
  | obj : List (String × JValue) → JValue

abbrev JFields := List (String × JValue)

/-- First-occurrence lookup in an association list (Python `d[k]` /
`k in d` on unique-key dicts). -/
def alookup {α : Type} : List (String × α) → String → Option α
  | [], _ => none
  | (k', v) :: rest, k => if k' = k then some v else alookup rest k

/-- Python `d[k] = v`: replace the value in place if the key is
present, otherwise append the binding at the end. -/
def aset {α : Type} : List (String × α) → String → α → List (String × α)
  | [], k, v => [(k, v)]
  | (k', v') :: rest, k, v =>
      if k' = k then (k, v) :: rest else (k', v') :: aset rest k v

/-- Python `del d[k]` / `d.pop(k, None)`: drop the binding for `k`,
keeping every other binding in order. -/
def aerase {α : Type} (l : List (String × α)) (k : String) : List (String × α) :=
  l.filter (fun p => p.1 ≠ k)

/-- The keys of an association list, in order. -/
def akeys {α : Type} (l : List (String × α)) : List String :=
  l.map Prod.fst

@[simp] theorem alookup_nil {α : Type} (k : String) :
    alookup ([] : List (String × α)) k = none := rfl

@[simp] theorem alookup_cons {α : Type} (k' : String) (v : α) (rest : List (String × α))
    (k : String) :
    alookup ((k', v) :: rest) k = if k' = k then some v else alookup rest k := rfl

@[simp] theorem aset_nil {α : Type} (k : String) (v : α) :
    aset ([] : List (String × α)) k v = [(k, v)] := rfl

@[simp] theorem aset_cons {α : Type} (k' : String) (v' : α) (rest : List (String × α))
    (k : String) (v : α) :
    aset ((k', v') :: rest) k v =
      if k' = k then (k, v) :: rest else (k', v') :: aset rest k v := rfl

@[simp] theorem akeys_nil {α : Type} : akeys ([] : List (String × α)) = [] := rfl

@[simp] theorem akeys_cons {α : Type} (p : String × α) (rest : List (String × α)) :
    akeys (p :: rest) = p.1 :: akeys rest := rfl

theorem alookup_aset_self {α : Type} (l : List (String × α)) (k : String) (v : α) :
    alookup (aset l k v) k = some v := by
  induction l with
  | nil => simp
  | cons p rest ih =>
      obtain ⟨k', v'⟩ := p
      by_cases h : k' = k <;> simp [h, ih]

theorem alookup_aset_ne {α : Type} (l : List (String × α)) (k j : String) (v : α)
    (hne : j ≠ k) : alookup (aset l k v) j = alookup l j := by
  induction l with
  | nil => simp [Ne.symm hne]
  | cons p rest ih =>
      obtain ⟨k', v'⟩ := p
      by_cases h : k' = k
      · subst h
        simp [Ne.symm hne]
      · simp only [aset_cons, if_neg h, alookup_cons]
        by_cases h2 : k' = j <;> simp [h2, ih]

theorem akeys_aset_mem {α : Type} (k : String) (v : α) :
    ∀ l : List (String × α), k ∈ akeys l → akeys (aset l k v) = akeys l
  | [], h => by simp at h
  | (k', v') :: rest, h => by
      by_cases hk : k' = k
      · simp [hk]
      · have hmem : k ∈ akeys rest := by
          rcases (by simpa using h) with h1 | h1
          · exact absurd h1.symm hk
          · exact h1
        simp [hk, akeys_aset_mem k v rest hmem]

theorem akeys_aset_not_mem {α : Type} (k : String) (v : α) :
    ∀ l : List (String × α), k ∉ akeys l → akeys (aset l k v) = akeys l ++ [k]
  | [], _ => by simp
  | (k', v') :: rest, h => by
      have hk : k' ≠ k := fun hkk => h (by simp [hkk])
      have hmem : k ∉ akeys rest := fun hm => h (by simp [hm])
      simp [hk, akeys_aset_not_mem k v rest hmem]

theorem alookup_eq_none_of_not_mem {α : Type} (k : String) :
    ∀ l : List (String × α), k ∉ akeys l → alookup l k = none
  | [], _ => rfl
  | (k', v') :: rest, h => by
      have hk : k' ≠ k := fun hkk => h (by simp [hkk])
      have hmem : k ∉ akeys rest := fun hm => h (by simp [hm])
      simp [hk, alookup_eq_none_of_not_mem k rest hmem]

theorem mem_akeys_of_alookup {α : Type} (l : List (String × α)) (k : String) (v : α)
    (h : alookup l k = some v) : k ∈ akeys l := by
  by_contra hmem
  rw [alookup_eq_none_of_not_mem k l hmem] at h
  exact Option.noConfusion h

theorem mem_of_alookup_eq_some {α : Type} (k : String) (v : α) :
    ∀ l : List (String × α), alookup l k = some v → (k, v) ∈ l
  | [], h => by simp at h
  | (k', v') :: rest, h => by
      by_cases hk : k' = k
      · subst hk
        simp at h
        simp [h]
      · simp [hk] at h
        simp [mem_of_alookup_eq_some k v rest h]

mutual
/-- Translation of `KubernetesConfigManager._deep_merge_dict`
(`src/backend/services/kubernetes_service_enhanced.py`, lines 175-185):
for every key of `source`, if both the current value in `result` and the
source value are dicts, merge them recursively, otherwise assign the
source value wholesale.  The Python `deepcopy` calls are identities in
this pure embedding. -/
def deep_merge_dict : JFields → JFields → JFields
  | target, [] => target
  | target, (k, v) :: rest =>
      deep_merge_dict (aset target k (mergeStep (alookup target k) v)) rest

/-- The per-key branch of `_deep_merge_dict`: the inlined condition
`key in result and isinstance(result[key], dict) and isinstance(value, dict)`. -/
def mergeStep : Option JValue → JValue → JValue
  | some (JValue.obj tf), JValue.obj sf => JValue.obj (deep_merge_dict tf sf)
  | _, v => v
end

@[simp] theorem deep_merge_dict_nil (t : JFields) : deep_merge_dict t [] = t := by
  rw [deep_merge_dict]

theorem deep_merge_dict_cons (t : JFields) (k : String) (v : JValue) (rest : JFields) :
    deep_merge_dict t ((k, v) :: rest) =
      deep_merge_dict (aset t k (mergeStep (alookup t k) v)) rest := by
  rw [deep_merge_dict]

/-- `true` exactly on dict values (Python `isinstance(x, dict)`). -/
def JValue.isObj : JValue → Bool
  | JValue.obj _ => true
  | _ => false

theorem mergeStep_of_left_not_obj (o : Option JValue) (v : JValue)
    (h : ∀ tf, o ≠ some (JValue.obj tf)) : mergeStep o v = v := by
  cases o with
  | none => cases v <;> simp [mergeStep]
  | some x =>
      cases x with
      | obj tf => exact absurd rfl (h tf)
      | _ => cases v <;> simp [mergeStep]

theorem mergeStep_of_right_not_obj (o : Option JValue) (v : JValue)
    (h : v.isObj = false) : mergeStep o v = v := by
  cases v with
  | obj sf => simp [JValue.isObj] at h
  | _ =>
      cases o with
      | none => simp [mergeStep]
      | some x => cases x <;> simp [mergeStep]

@[simp] theorem mergeStep_obj_obj (tf sf : JFields) :
    mergeStep (some (JValue.obj tf)) (JValue.obj sf) =
      JValue.obj (deep_merge_dict tf sf) := by
  simp [mergeStep]

theorem mem_akeys_aset {α : Type} (l : List (String × α)) (k j : String) (v : α)
    (h : j ∈ akeys l) : j ∈ akeys (aset l k v) := by
  by_cases hk : k ∈ akeys l
  · rw [akeys_aset_mem k v l hk]; exact h
  · rw [akeys_aset_not_mem k v l hk]; exact List.mem_append_left _ h

theorem self_mem_akeys_aset {α : Type} (l : List (String × α)) (k : String) (v : α) :
    k ∈ akeys (aset l k v) := by
  by_cases hk : k ∈ akeys l
  · rw [akeys_aset_mem k v l hk]; exact hk
  · rw [akeys_aset_not_mem k v l hk]; exact List.mem_append_right _ (by simp)

theorem mem_akeys_deep_merge_left (j : String) :
    ∀ (s t : JFields), j ∈ akeys t → j ∈ akeys (deep_merge_dict t s)
  | [], t, h => by simpa using h
  | (k, v) :: rest, t, h => by
      rw [deep_merge_dict_cons]
      exact mem_akeys_deep_merge_left j rest _ (mem_akeys_aset t k j _ h)

theorem mem_akeys_deep_merge_right (j : String) :
    ∀ (s t : JFields), j ∈ akeys s → j ∈ akeys (deep_merge_dict t s)
  | [], _, h => by simp at h
  | (k, v) :: rest, t, h => by
      rw [deep_merge_dict_cons]
      rcases (by simpa using h) with h1 | h1
      · subst h1
        exact mem_akeys_deep_merge_left j rest _ (self_mem_akeys_aset t j _)
      · exact mem_akeys_deep_merge_right j rest _ h1

theorem akeys_deep_merge_of_subset :
    ∀ (s t : JFields), (∀ j, j ∈ akeys s → j ∈ akeys t) →
      akeys (deep_merge_dict t s) = akeys t
  | [], t, _ => by simp
  | (k, v) :: rest, t, h => by
      rw [deep_merge_dict_cons]
      have hk : k ∈ akeys t := h k (by simp)
      have hkeys : akeys (aset t k (mergeStep (alookup t k) v)) = akeys t :=
        akeys_aset_mem k _ t hk
      rw [akeys_deep_merge_of_subset rest _ (fun j hj => by
        rw [hkeys]; exact h j (by simp [hj])), hkeys]

theorem nodup_akeys_aset {α : Type} (l : List (String × α)) (k : String) (v : α)
    (h : (akeys l).Nodup) : (akeys (aset l k v)).Nodup := by
  by_cases hk : k ∈ akeys l
  · rw [akeys_aset_mem k v l hk]; exact h
  · rw [akeys_aset_not_mem k v l hk]
    simpa [List.nodup_append] using ⟨h, hk⟩

theorem nodup_akeys_deep_merge :
    ∀ (s t : JFields), (akeys t).Nodup → (akeys s).Nodup →
      (akeys (deep_merge_dict t s)).Nodup
  | [], t, ht, _ => by simpa using ht
  | (k, v) :: rest, t, ht, hs => by
      rw [deep_merge_dict_cons]
      have hs' : (akeys rest).Nodup := (List.nodup_cons.mp (by simpa using hs)).2
      exact nodup_akeys_deep_merge rest _ (nodup_akeys_aset t k _ ht) hs'

theorem alist_ext {α : Type} :
    ∀ (t u : List (String × α)), akeys t = akeys u → (akeys t).Nodup →
      (∀ j, alookup t j = alookup u j) → t = u
  | [], [], _, _, _ => rfl
  | [], (k, v) :: _, hkeys, _, _ => by simp at hkeys
  | (k, v) :: _, [], hkeys, _, _ => by simp at hkeys
  | (k, v) :: t', (k2, v2) :: u', hkeys, hnd, hlook => by
      have hk : k = k2 := by simpa using congrArg (fun l => l.head?) hkeys
      subst hk
      have hv : v = v2 := by
        have := hlook k
        simpa using this
      subst hv
      have hnd' := List.nodup_cons.mp (by simpa using hnd)
      have htail : t' = u' := by
        refine alist_ext t' u' (by simpa using hkeys) hnd'.2 (fun j => ?_)
        by_cases hj : j = k
        · subst hj
          rw [alookup_eq_none_of_not_mem j t' hnd'.1,
            alookup_eq_none_of_not_mem j u' (by
              rw [← show akeys t' = akeys u' from by simpa using hkeys]
              exact hnd'.1)]
        · have := hlook j
          simpa [Ne.symm hj] using this
      rw [htail]

theorem alookup_deep_merge_of_none (j : String) :
    ∀ (s t : JFields), alookup s j = none →
      alookup (deep_merge_dict t s) j = alookup t j
  | [], t, _ => by simp
  | (k, v) :: rest, t, h => by
      have hk : k ≠ j := by
        intro hkj
        simp [hkj] at h
      have hrest : alookup rest j = none := by simpa [hk] using h
      rw [deep_merge_dict_cons, alookup_deep_merge_of_none j rest _ hrest,
        alookup_aset_ne _ _ _ _ (fun hjk => hk hjk.symm)]

theorem alookup_deep_merge_of_some (j : String) (v : JValue) :
    ∀ (s t : JFields), (akeys s).Nodup → alookup s j = some v →
      alookup (deep_merge_dict t s) j = some (mergeStep (alookup t j) v)
  | [], _, _, h => by simp at h
  | (k, v0) :: rest, t, hs, h => by
      have hnd := List.nodup_cons.mp (by simpa using hs)
      rw [deep_merge_dict_cons]
      by_cases hk : k = j
      · subst hk
        have hv : v0 = v := by simpa using h
        subst hv
        have hrest : alookup rest k = none :=
          alookup_eq_none_of_not_mem k rest hnd.1
        rw [alookup_deep_merge_of_none k rest _ hrest, alookup_aset_self]
      · have hrest : alookup rest j = some v := by simpa [hk] using h
        rw [alookup_deep_merge_of_some j v rest _ hnd.2 hrest,
          alookup_aset_ne _ _ _ _ (fun hjk => hk hjk.symm)]

mutual
/-- Well-formedness of an embedded Python value: every dict in the tree
has pairwise-distinct keys (always true of real Python dicts). -/
def wfValue : JValue → Bool
  | JValue.obj fs => wfFields fs
  | _ => true

/-- Well-formedness of an embedded Python dict (distinct keys at every
nesting level). -/
def wfFields : JFields → Bool
  | [] => true
  | (k, v) :: rest => !(decide (k ∈ akeys rest)) && wfValue v && wfFields rest
end

theorem wfFields_cons (k : String) (v : JValue) (rest : JFields)
    (h : wfFields ((k, v) :: rest) = true) :
    k ∉ akeys rest ∧ wfValue v = true ∧ wfFields rest = true := by
  rw [wfFields] at h
  simp at h
  exact ⟨h.1.1, h.1.2, h.2⟩

theorem wfFields_nodup : ∀ fs : JFields, wfFields fs = true → (akeys fs).Nodup
  | [], _ => by simp
  | (k, v) :: rest, h => by
      obtain ⟨h1, _, h3⟩ := wfFields_cons k v rest h
      simpa using ⟨h1, wfFields_nodup rest h3⟩

theorem wfFields_mem : ∀ fs : JFields, wfFields fs = true →
    ∀ k v, (k, v) ∈ fs → wfValue v = true
  | [], _, _, _, hm => by simp at hm
  | (k0, v0) :: rest, h, k, v, hm => by
      obtain ⟨_, h2, h3⟩ := wfFields_cons k0 v0 rest h
      rcases (by simpa using hm) with h4 | h4
      · rw [h4.2]; exact h2
      · exact wfFields_mem rest h3 k v h4

theorem wfFields_alookup (fs : JFields) (h : wfFields fs = true)
    (k : String) (v : JValue) (hl : alookup fs k = some v) : wfValue v = true :=
  wfFields_mem fs h k v (mem_of_alookup_eq_some k v fs hl)

theorem deep_merge_self : ∀ d : JFields, wfFields d = true →
    deep_merge_dict d d = d
  | d, hwf => by
      have hnd : (akeys d).Nodup := wfFields_nodup d hwf
      refine alist_ext _ _ (akeys_deep_merge_of_subset d d (fun _ h => h))
        (by rwa [akeys_deep_merge_of_subset d d (fun _ h => h)]) (fun j => ?_)
      cases hl : alookup d j with
      | none => rw [alookup_deep_merge_of_none j d d hl, hl]
      | some v =>
          rw [alookup_deep_merge_of_some j v d d hnd hl, hl]
          cases v with
          | obj df =>
              have hdf : wfFields df = true := by
                have := wfFields_alookup d hwf j _ hl
                rwa [wfValue] at this
              have hmem : (j, JValue.obj df) ∈ d := mem_of_alookup_eq_some _ _ d hl
              have hsz : sizeOf df < sizeOf d := by
                have h1 := List.sizeOf_lt_of_mem hmem
                simp only [Prod.mk.sizeOf_spec, JValue.obj.sizeOf_spec] at h1
                omega
              rw [mergeStep_obj_obj, deep_merge_self df hdf]
          | null => rfl
          | bool b => simp [mergeStep]
          | num n => simp [mergeStep]
          | str s => simp [mergeStep]
          | arr xs => simp [mergeStep]
termination_by d _ => sizeOf d

theorem deep_merge_idem : ∀ (s t : JFields), wfFields s = true → wfFields t = true →
    deep_merge_dict (deep_merge_dict t s) s = deep_merge_dict t s
  | s, t, hs, ht => by
      have hnds : (akeys s).Nodup := wfFields_nodup s hs
      have hndt : (akeys t).Nodup := wfFields_nodup t ht
      have hsub : ∀ j, j ∈ akeys s → j ∈ akeys (deep_merge_dict t s) :=
        fun j hj => mem_akeys_deep_merge_right j s t hj
      refine alist_ext _ _ (akeys_deep_merge_of_subset s _ hsub)
        (by
          rw [akeys_deep_merge_of_subset s _ hsub]
          exact nodup_akeys_deep_merge s t hndt hnds) (fun j => ?_)
      cases hl : alookup s j with
      | none =>
          rw [alookup_deep_merge_of_none j s _ hl]
      | some v =>
          rw [alookup_deep_merge_of_some j v s _ hnds hl,
            alookup_deep_merge_of_some j v s t hnds hl]
          cases v with
          | obj sf =>
              have hsf : wfFields sf = true := by
                have := wfFields_alookup s hs j _ hl
                rwa [wfValue] at this
              have hmem : (j, JValue.obj sf) ∈ s := mem_of_alookup_eq_some _ _ s hl
              have hsz : sizeOf sf < sizeOf s := by
                have h1 := List.sizeOf_lt_of_mem hmem
                simp only [Prod.mk.sizeOf_spec, JValue.obj.sizeOf_spec] at h1
                omega
              have hsfm : deep_merge_dict sf sf = sf := deep_merge_self sf hsf
              cases hlt : alookup t j with
              | none =>
                  have hinner : mergeStep none (JValue.obj sf) = JValue.obj sf :=
                    mergeStep_of_left_not_obj _ _ (by simp)
                  rw [hinner, mergeStep_obj_obj, hsfm]
              | some tv =>
                  cases tv with
                  | obj tf =>
                      have htf : wfFields tf = true := by
                        have := wfFields_alookup t ht j _ hlt
                        rwa [wfValue] at this
                      rw [mergeStep_obj_obj, mergeStep_obj_obj,
                        deep_merge_idem sf tf hsf htf]
                  | null =>
                      have hinner : mergeStep (some JValue.null) (JValue.obj sf) =
                          JValue.obj sf := mergeStep_of_left_not_obj _ _ (by simp)
                      rw [hinner, mergeStep_obj_obj, hsfm]
                  | bool b =>
                      have hinner : mergeStep (some (JValue.bool b)) (JValue.obj sf) =
                          JValue.obj sf := mergeStep_of_left_not_obj _ _ (by simp)
                      rw [hinner, mergeStep_obj_obj, hsfm]
                  | num n =>
                      have hinner : mergeStep (some (JValue.num n)) (JValue.obj sf) =
                          JValue.obj sf := mergeStep_of_left_not_obj _ _ (by simp)
                      rw [hinner, mergeStep_obj_obj, hsfm]
                  | str s2 =>
                      have hinner : mergeStep (some (JValue.str s2)) (JValue.obj sf) =
                          JValue.obj sf := mergeStep_of_left_not_obj _ _ (by simp)
                      rw [hinner, mergeStep_obj_obj, hsfm]
                  | arr xs =>
                      have hinner : mergeStep (some (JValue.arr xs)) (JValue.obj sf) =
                          JValue.obj sf := mergeStep_of_left_not_obj _ _ (by simp)
                      rw [hinner, mergeStep_obj_obj, hsfm]
          | null => rw [mergeStep_of_right_not_obj _ JValue.null rfl,
              mergeStep_of_right_not_obj _ JValue.null rfl]
          | bool b => rw [mergeStep_of_right_not_obj _ (JValue.bool b) rfl,
              mergeStep_of_right_not_obj _ (JValue.bool b) rfl]
          | num n => rw [mergeStep_of_right_not_obj _ (JValue.num n) rfl,
              mergeStep_of_right_not_obj _ (JValue.num n) rfl]
          | str s2 => rw [mergeStep_of_right_not_obj _ (JValue.str s2) rfl,
              mergeStep_of_right_not_obj _ (JValue.str s2) rfl]
          | arr xs => rw [mergeStep_of_right_not_obj _ (JValue.arr xs) rfl,
              mergeStep_of_right_not_obj _ (JValue.arr xs) rfl]
termination_by s _ _ _ => sizeOf s

/-- Claim C8: `_deep_merge_dict` is idempotent in its patch argument —
for every base configuration and patch (well-formed Python dicts, i.e.
distinct keys at every level), merging the patch into an
already-merged result changes nothing; moreover a patch value that is
not a dict, or whose base counterpart is not a dict, replaces the base
value wholesale (this covers list-valued fields).  Base is never
mutated: the embedding is pure and the source deep-copies its inputs. -/
theorem C8_deep_merge_idempotent (base patch : JFields)
    (hb : wfFields base = true) (hp : wfFields patch = true) :
    deep_merge_dict (deep_merge_dict base patch) patch = deep_merge_dict base patch ∧
    (∀ k v, alookup patch k = some v →
      (v.isObj = false ∨ ∀ tf, alookup base k ≠ some (JValue.obj tf)) →
      alookup (deep_merge_dict base patch) k = some v) := by
  constructor
  · exact deep_merge_idem patch base hp hb
  · intro k v hl hcond
    rw [alookup_deep_merge_of_some k v patch base (wfFields_nodup patch hp) hl]
    rcases hcond with h | h
    · rw [mergeStep_of_right_not_obj _ _ h]
    · rw [mergeStep_of_left_not_obj _ _ h]

/-- Concrete instance of claim C8 on a deployment-style configuration:
a nested `spec` dict is merged recursively and a list-valued field is
replaced wholesale; the merge is idempotent. -/
theorem C8_deep_merge_idempotent_witness :
    deep_merge_dict
        (deep_merge_dict
          [("spec", JValue.obj [("replicas", JValue.num 3), ("paused", JValue.bool false)]),
           ("finalizers", JValue.arr [JValue.str "a"])]
          [("spec", JValue.obj [("replicas", JValue.num 5)]),
           ("finalizers", JValue.arr [JValue.str "b"])])
        [("spec", JValue.obj [("replicas", JValue.num 5)]),
         ("finalizers", JValue.arr [JValue.str "b"])] =
      deep_merge_dict
        [("spec", JValue.obj [("replicas", JValue.num 3), ("paused", JValue.bool false)]),
         ("finalizers", JValue.arr [JValue.str "a"])]
        [("spec", JValue.obj [("replicas", JValue.num 5)]),
         ("finalizers", JValue.arr [JValue.str "b"])] :=
  (C8_deep_merge_idempotent
    [("spec", JValue.obj [("replicas", JValue.num 3), ("paused", JValue.bool false)]),
     ("finalizers", JValue.arr [JValue.str "a"])]
    [("spec", JValue.obj [("replicas", JValue.num 5)]),
     ("finalizers", JValue.arr [JValue.str "b"])]
    (by decide) (by decide)).1

theorem alookup_aerase_self {α : Type} (l : List (String × α)) (k : String) :
    alookup (aerase l k) k = none := by
  induction l with
  | nil => rfl
  | cons p rest ih =>
      obtain ⟨k', v'⟩ := p
      by_cases h : k' = k
      · simpa [aerase, h] using ih
      · simpa [aerase, h] using ih

theorem alookup_aerase_ne {α : Type} (l : List (String × α)) (k j : String)
    (hne : j ≠ k) : alookup (aerase l k) j = alookup l j := by
  induction l with
  | nil => rfl
  | cons p rest ih =>
      obtain ⟨k', v'⟩ := p
      by_cases h : k' = k
      · subst h
        simpa [aerase, Ne.symm hne] using ih
      · by_cases h2 : k' = j
        · subst h2
          simp [aerase, h]
        · simpa [aerase, h, h2] using ih

/-- Stable insertion of `x` into `l`, placing `x` before the first
element `y` with `le x y` (models Python's stable `sorted`). -/
def insertSorted {α : Type} (le : α → α → Bool) (x : α) : List α → List α
  | [] => [x]
  | y :: ys => if le x y then x :: y :: ys else y :: insertSorted le x ys

/-- Stable sort by the boolean comparator `le` (insertion sort; models
Python's stable `sorted`). -/
def sortBy {α : Type} (le : α → α → Bool) : List α → List α
  | [] => []
  | x :: xs => insertSorted le x (sortBy le xs)

/-- Lexicographic comparison of character lists by code point —
Python's string ordering. -/
def charListLe : List Char → List Char → Bool
  | [], _ => true
  | _ :: _, [] => false
  | a :: as, b :: bs =>
      if a.toNat < b.toNat then true
      else if b.toNat < a.toNat then false
      else charListLe as bs

/-- Python `a <= b` on strings. -/
def strLe (a b : String) : Bool := charListLe a.data b.data

/-- Whether the first character list is a leading segment of the
second. -/
def charListPre : List Char → List Char → Bool
  | [], _ => true
  | _ :: _, [] => false
  | a :: as, b :: bs => a == b && charListPre as bs

/-- Python `s.startswith(p)`. -/
def strStartsWith (s p : String) : Bool := charListPre p.data s.data

/-- Python `s.endswith(p)`. -/
def strEndsWith (s p : String) : Bool := charListPre p.data.reverse s.data.reverse

/-- The caching strategies of `cache_manager.CacheStrategy`. -/
inductive CacheStrategy where
  | no_cache : CacheStrategy
  | short_term : CacheStrategy
  | medium_term : CacheStrategy
  | long_term : CacheStrategy
  | persistent : CacheStrategy
deriving DecidableEq

/-- `KubernetesCacheManager._get_ttl_seconds` (`cache_manager.py`,
lines 151-160). -/
def get_ttl_seconds : CacheStrategy → Int
  | CacheStrategy.no_cache => 0
  | CacheStrategy.short_term => 30
  | CacheStrategy.medium_term => 120
  | CacheStrategy.long_term => 300
  | CacheStrategy.persistent => -1

/-- A `cache_manager.CacheEntry`; timestamps are rationals standing in
for `datetime` instants measured in seconds. -/
structure CacheEntry where
  key : String
  data : JValue
  timestamp : ℚ
  ttl_seconds : Int
  access_count : Nat
  last_accessed : ℚ
  tags : List String

/-- `CacheEntry.is_expired` (`cache_manager.py`, lines 39-43): a
non-positive TTL never expires; otherwise expired once strictly more
than `ttl_seconds` have elapsed since `timestamp`. -/
def is_expired (now : ℚ) (e : CacheEntry) : Bool :=
  if e.ttl_seconds ≤ 0 then false
  else decide (now - e.timestamp > (e.ttl_seconds : ℚ))

/-- The mutable state of a `KubernetesCacheManager`: the entry map, the
tag index (tag → keys) and the statistics counters. -/
structure CacheState where
  cache : List (String × CacheEntry)
  tag_index : List (String × List String)
  hits : Nat
  misses : Nat
  evictions : Nat
  invalidations : Nat

def initialCacheState : CacheState :=
  { cache := [], tag_index := [], hits := 0, misses := 0, evictions := 0,
    invalidations := 0 }

/-- `_max_cache_size` (`cache_manager.py`, line 56). -/
def max_cache_size : Nat := 1000

/-- One step of the tag-index cleanup inside
`KubernetesCacheManager._remove_entry`: discard `key` from the set held
under `tag`, deleting the set if it becomes empty. -/
def discardTag (key : String) (ti : List (String × List String)) (tag : String) :
    List (String × List String) :=
  match alookup ti tag with
  | none => ti
  | some ks =>
      let ks' := ks.erase key
      if ks' = [] then aerase ti tag else aset ti tag ks'

/-- `KubernetesCacheManager._remove_entry` (`cache_manager.py`,
lines 120-132). -/
def remove_entry (st : CacheState) (key : String) : CacheState :=
  match alookup st.cache key with
  | none => st
  | some e =>
      { st with
        cache := aerase st.cache key,
        tag_index := e.tags.foldl (discardTag key) st.tag_index }

/-- `KubernetesCacheManager.get` (`cache_manager.py`, lines 173-193):
miss on absence, lazy eviction plus miss on expiry, otherwise a hit
that bumps `access_count` and refreshes `last_accessed`. -/
def cache_get (st : CacheState) (key : String) (now : ℚ) :
    Option JValue × CacheState :=
  match alookup st.cache key with
  | none => (none, { st with misses := st.misses + 1 })
  | some e =>
      if is_expired now e then
        let st' := remove_entry st key
        (none, { st' with misses := st'.misses + 1 })
      else
        (some e.data,
         { st with
            cache := aset st.cache key
              { e with access_count := e.access_count + 1, last_accessed := now },
            hits := st.hits + 1 })

/-- Add `key` to a tag's key set (Python `set.add`). -/
def addKey (ks : List String) (key : String) : List String :=
  if key ∈ ks then ks else ks ++ [key]

/-- `KubernetesCacheManager.set` (`cache_manager.py`, lines 195-229):
refuse `NO_CACHE`, remove any existing entry at `key`, insert a fresh
entry stamped `now`, and index it under each of its tags.  The Python
`tags` argument is a set; `List.dedup` models its distinctness. -/
def cache_set (st : CacheState) (key : String) (data : JValue)
    (strategy : CacheStrategy) (tags : List String) (now : ℚ) :
    Bool × CacheState :=
  if strategy = CacheStrategy.no_cache then (false, st)
  else
    let ttl := get_ttl_seconds strategy
    let td := tags.dedup
    let st1 := if (alookup st.cache key).isSome then remove_entry st key else st
    let e : CacheEntry :=
      { key := key, data := data, timestamp := now, ttl_seconds := ttl,
        access_count := 0, last_accessed := now, tags := td }
    let st2 := { st1 with cache := aset st1.cache key e }
    let ti := td.foldl
      (fun ti tag => aset ti tag (addKey ((alookup ti tag).getD []) key))
      st2.tag_index
    (true, { st2 with tag_index := ti })

/-- `KubernetesCacheManager.invalidate_by_key` (`cache_manager.py`,
lines 231-237). -/
def invalidate_by_key (st : CacheState) (key : String) : Bool × CacheState :=
  if (alookup st.cache key).isSome then
    let st' := remove_entry st key
    (true, { st' with invalidations := st'.invalidations + 1 })
  else (false, st)

/-- `KubernetesCacheManager.invalidate_by_tag` (`cache_manager.py`,
lines 239-250). -/
def invalidate_by_tag (st : CacheState) (tag : String) : Nat × CacheState :=
  match alookup st.tag_index tag with
  | none => (0, st)
  | some ks =>
      let st' := ks.foldl remove_entry st
      (ks.length, { st' with invalidations := st'.invalidations + ks.length })

/-- The keys selected by `KubernetesCacheManager.invalidate_by_pattern`
(`cache_manager.py`, lines 252-265): a trailing `*` selects by key
prefix, else a leading `*` selects by key suffix, else exact match. -/
def patternKeys (st : CacheState) (pat : String) : List String :=
  if strEndsWith pat "*" then
    (akeys st.cache).filter (fun k => strStartsWith k (pat.dropRight 1))
  else if strStartsWith pat "*" then
    (akeys st.cache).filter (fun k => strEndsWith k (pat.drop 1))
  else if (alookup st.cache pat).isSome then [pat] else []

/-- `KubernetesCacheManager.invalidate_by_pattern` (`cache_manager.py`,
lines 252-271). -/
def invalidate_by_pattern (st : CacheState) (pat : String) : Nat × CacheState :=
  let ks := patternKeys st pat
  let st' := ks.foldl remove_entry st
  (ks.length, { st' with invalidations := st'.invalidations + ks.length })

/-- `KubernetesCacheManager.clear_all` (`cache_manager.py`,
lines 273-279). -/
def clear_all (st : CacheState) : Nat × CacheState :=
  (st.cache.length,
   { st with
      cache := ([] : List (String × CacheEntry))
      tag_index := ([] : List (String × List String))
      invalidations := st.invalidations + st.cache.length })

/-- `KubernetesCacheManager._cleanup_expired` (`cache_manager.py`,
lines 88-101): the TTL half of the periodic sweep. -/
def cleanup_expired (st : CacheState) (now : ℚ) : CacheState :=
  let ks := (st.cache.filter (fun p => is_expired now p.2)).map Prod.fst
  let st' := ks.foldl remove_entry st
  { st' with evictions := st'.evictions + ks.length }

/-- `KubernetesCacheManager._enforce_size_limit` (`cache_manager.py`,
lines 103-118): evict least-recently-accessed entries until the size
bound holds. -/
def enforce_size_limit (st : CacheState) : CacheState :=
  if st.cache.length ≤ max_cache_size then st
  else
    let sorted := sortBy
      (fun a b => decide (a.2.last_accessed ≤ b.2.last_accessed)) st.cache
    let ks := (sorted.take (st.cache.length - max_cache_size)).map Prod.fst
    let st' := ks.foldl remove_entry st
    { st' with evictions := st'.evictions + ks.length }

/-- One cache-store operation, for stating state-machine invariants
over arbitrary operation sequences. -/
inductive CacheOp where
  | opSet : String → JValue → CacheStrategy → List String → ℚ → CacheOp
  | opGet : String → ℚ → CacheOp
  | opInvalidateByKey : String → CacheOp
  | opInvalidateByTag : String → CacheOp
  | opInvalidateByPattern : String → CacheOp
  | opClearAll : CacheOp
  | opCleanupExpired : ℚ → CacheOp
  | opEnforceSizeLimit : CacheOp

/-- The state transition of each cache-store operation (return values
projected away). -/
def cacheStep (st : CacheState) : CacheOp → CacheState
  | CacheOp.opSet k d s ts now => (cache_set st k d s ts now).2
  | CacheOp.opGet k now => (cache_get st k now).2
  | CacheOp.opInvalidateByKey k => (invalidate_by_key st k).2
  | CacheOp.opInvalidateByTag t => (invalidate_by_tag st t).2
  | CacheOp.opInvalidateByPattern p => (invalidate_by_pattern st p).2
  | CacheOp.opClearAll => (clear_all st).2
  | CacheOp.opCleanupExpired now => cleanup_expired st now
  | CacheOp.opEnforceSizeLimit => enforce_size_limit st

/-- Run a sequence of cache operations from the empty store. -/
def cacheRun (ops : List CacheOp) : CacheState :=
  ops.foldl cacheStep initialCacheState

/-- Mutual consistency of the entry map and the tag index: every key
listed under a tag exists and carries that tag, and every tag of a
stored entry indexes a set containing the entry's key. -/
def TagConsistent (st : CacheState) : Prop :=
  (∀ tag ks, alookup st.tag_index tag = some ks →
     ∀ k, k ∈ ks → ∃ e, alookup st.cache k = some e ∧ tag ∈ e.tags) ∧
  (∀ k e, alookup st.cache k = some e →
     ∀ tag, tag ∈ e.tags → ∃ ks, alookup st.tag_index tag = some ks ∧ k ∈ ks)

/-- `TagConsistent` strengthened with the distinctness facts that the
Python `set` type maintains automatically. -/
def CacheInv (st : CacheState) : Prop :=
  TagConsistent st ∧
  (∀ tag ks, alookup st.tag_index tag = some ks → ks.Nodup) ∧
  (∀ k e, alookup st.cache k = some e → e.tags.Nodup)

/-- The effect of `_remove_entry` on one tag's key set. -/
def discardResult (key : String) (o : Option (List String)) : Option (List String) :=
  match o with
  | none => none
  | some ks => if ks.erase key = [] then none else some (ks.erase key)

theorem mem_addKey (ks : List String) (key k : String) :
    k ∈ addKey ks key ↔ k ∈ ks ∨ k = key := by
  by_cases h : key ∈ ks
  · simp only [addKey, if_pos h]
    constructor
    · exact Or.inl
    · rintro (hk | rfl)
      · exact hk
      · exact h
  · simp [addKey, if_neg h]

theorem self_mem_addKey (ks : List String) (key : String) : key ∈ addKey ks key := by
  rw [mem_addKey]; exact Or.inr rfl

theorem nodup_addKey (ks : List String) (key : String) (h : ks.Nodup) :
    (addKey ks key).Nodup := by
  by_cases hk : key ∈ ks
  · simpa [addKey, hk] using h
  · rw [addKey, if_neg hk, List.nodup_append]
    refine ⟨h, List.nodup_singleton key, ?_⟩
    intro a ha hb
    simp at hb
    subst hb
    exact hk ha

theorem alookup_discardTag_ne (key : String) (ti : List (String × List String))
    (t0 tag : String) (h : tag ≠ t0) :
    alookup (discardTag key ti t0) tag = alookup ti tag := by
  rw [discardTag]
  cases hti : alookup ti t0 with
  | none => rfl
  | some ks =>
      by_cases he : ks.erase key = []
      · simp only [he, if_pos rfl]
        exact alookup_aerase_ne ti t0 tag h
      · simp only [if_neg he]
        exact alookup_aset_ne ti t0 tag _ h

theorem alookup_discardTag_self (key : String) (ti : List (String × List String))
    (t0 : String) :
    alookup (discardTag key ti t0) t0 = discardResult key (alookup ti t0) := by
  rw [discardTag]
  cases hti : alookup ti t0 with
  | none => simp only [discardResult]; exact hti
  | some ks =>
      by_cases he : ks.erase key = []
      · simp only [discardResult, he, if_pos rfl]
        exact alookup_aerase_self ti t0
      · simp only [discardResult, if_neg he]
        exact alookup_aset_self ti t0 _

theorem alookup_foldl_discard (key : String) :
    ∀ (ts : List String) (ti : List (String × List String)) (tag : String),
      ts.Nodup →
      alookup (ts.foldl (discardTag key) ti) tag =
        if tag ∈ ts then discardResult key (alookup ti tag)
        else alookup ti tag
  | [], ti, tag, _ => by simp
  | t0 :: rest, ti, tag, hnd => by
      have hnd' := List.nodup_cons.mp hnd
      rw [List.foldl_cons,
        alookup_foldl_discard key rest (discardTag key ti t0) tag hnd'.2]
      by_cases htag : tag = t0
      · subst htag
        simp only [List.mem_cons, true_or, if_pos]
        rw [if_neg hnd'.1, alookup_discardTag_self]
      · rw [alookup_discardTag_ne key ti t0 tag htag]
        by_cases hmem : tag ∈ rest <;>
          simp [hmem, htag]

theorem alookup_foldl_addTag (key : String) :
    ∀ (ts : List String) (ti : List (String × List String)) (tag : String),
      ts.Nodup →
      alookup (ts.foldl
          (fun ti tag => aset ti tag (addKey ((alookup ti tag).getD []) key)) ti) tag =
        if tag ∈ ts then some (addKey ((alookup ti tag).getD []) key)
        else alookup ti tag
  | [], ti, tag, _ => by simp
  | t0 :: rest, ti, tag, hnd => by
      have hnd' := List.nodup_cons.mp hnd
      rw [List.foldl_cons,
        alookup_foldl_addTag key rest _ tag hnd'.2]
      by_cases htag : tag = t0
      · subst htag
        simp only [List.mem_cons, true_or, if_pos]
        rw [if_neg hnd'.1, alookup_aset_self]
      · rw [alookup_aset_ne _ _ _ _ htag]
        by_cases hmem : tag ∈ rest <;>
          simp [hmem, htag]

theorem remove_entry_of_none (st : CacheState) (key : String)
    (h : alookup st.cache key = none) : remove_entry st key = st := by
  simp [remove_entry, h]

theorem remove_entry_cache (st : CacheState) (key : String) (j : String) :
    alookup (remove_entry st key).cache j =
      if j = key then none else alookup st.cache j := by
  cases hc : alookup st.cache key with
  | none =>
      rw [remove_entry_of_none st key hc]
      by_cases hj : j = key
      · subst hj
        simp [hc]
      · simp [hj]
  | some e =>
      simp only [remove_entry, hc]
      by_cases hj : j = key
      · subst hj
        simp [alookup_aerase_self]
      · simp [hj, alookup_aerase_ne st.cache key j hj]

theorem remove_entry_tag_index (st : CacheState) (key : String) (e : CacheEntry)
    (hc : alookup st.cache key = some e) (hnd : e.tags.Nodup) (tag : String) :
    alookup (remove_entry st key).tag_index tag =
      if tag ∈ e.tags then discardResult key (alookup st.tag_index tag)
      else alookup st.tag_index tag := by
  simp only [remove_entry, hc]
  exact alookup_foldl_discard key e.tags st.tag_index tag hnd

theorem cacheInv_of_same_maps (st st' : CacheState) (hc : st'.cache = st.cache)
    (ht : st'.tag_index = st.tag_index) (h : CacheInv st) : CacheInv st' := by
  rw [CacheInv, TagConsistent, hc, ht]
  exact h

theorem cacheInv_remove_entry (st : CacheState) (key : String)
    (h : CacheInv st) : CacheInv (remove_entry st key) := by
  obtain ⟨⟨h1, h2⟩, hks, htags⟩ := h
  cases hc : alookup st.cache key with
  | none => rw [remove_entry_of_none st key hc]; exact ⟨⟨h1, h2⟩, hks, htags⟩
  | some e =>
      have hnd : e.tags.Nodup := htags key e hc
      refine ⟨⟨?_, ?_⟩, ?_, ?_⟩
      · intro tag ks' hl k hk
        rw [remove_entry_tag_index st key e hc hnd] at hl
        by_cases hmem : tag ∈ e.tags
        · rw [if_pos hmem] at hl
          cases hti : alookup st.tag_index tag with
          | none => rw [hti] at hl; exact absurd hl (by simp [discardResult])
          | some ks =>
              rw [hti] at hl
              by_cases he : ks.erase key = []
              · simp only [discardResult, he, if_pos rfl] at hl
                exact absurd hl (by simp)
              · have hks' : ks' = ks.erase key := by
                  simp only [discardResult, if_neg he] at hl
                  exact (Option.some_inj.mp hl).symm
                subst hks'
                have hknd : ks.Nodup := hks tag ks hti
                have hkk := (List.Nodup.mem_erase_iff hknd).mp hk
                obtain ⟨e2, he2, ht2⟩ := h1 tag ks hti k hkk.2
                refine ⟨e2, ?_, ht2⟩
                rw [remove_entry_cache, if_neg hkk.1]
                exact he2
        · rw [if_neg hmem] at hl
          obtain ⟨e2, he2, ht2⟩ := h1 tag ks' hl k hk
          have hkne : k ≠ key := by
            intro hkey
            subst hkey
            rw [hc] at he2
            cases he2
            exact hmem ht2
          refine ⟨e2, ?_, ht2⟩
          rw [remove_entry_cache, if_neg hkne]
          exact he2
      · intro k e2 hl tag ht2
        rw [remove_entry_cache] at hl
        by_cases hkey : k = key
        · rw [if_pos hkey] at hl; exact absurd hl (by simp)
        · rw [if_neg hkey] at hl
          obtain ⟨ks, hks', hkks⟩ := h2 k e2 hl tag ht2
          by_cases hmem : tag ∈ e.tags
          · refine ⟨ks.erase key, ?_, ?_⟩
            · rw [remove_entry_tag_index st key e hc hnd, if_pos hmem, hks']
              have hkmem : k ∈ ks.erase key :=
                (List.mem_erase_of_ne hkey).mpr hkks
              simp only [discardResult, if_neg (List.ne_nil_of_mem hkmem)]
            · exact (List.mem_erase_of_ne hkey).mpr hkks
          · exact ⟨ks, by
              rw [remove_entry_tag_index st key e hc hnd, if_neg hmem]
              exact hks', hkks⟩
      · intro tag ks' hl
        rw [remove_entry_tag_index st key e hc hnd] at hl
        by_cases hmem : tag ∈ e.tags
        · rw [if_pos hmem] at hl
          cases hti : alookup st.tag_index tag with
          | none => rw [hti] at hl; exact absurd hl (by simp [discardResult])
          | some ks =>
              rw [hti] at hl
              by_cases he : ks.erase key = []
              · simp only [discardResult, he, if_pos rfl] at hl
                exact absurd hl (by simp)
              · have : ks' = ks.erase key := by
                  simp only [discardResult, if_neg he] at hl
                  exact (Option.some_inj.mp hl).symm
                subst this
                exact (hks tag ks hti).erase key
        · rw [if_neg hmem] at hl
          exact hks tag ks' hl
      · intro k e2 hl
        rw [remove_entry_cache] at hl
        by_cases hkey : k = key
        · rw [if_pos hkey] at hl; exact absurd hl (by simp)
        · rw [if_neg hkey] at hl
          exact htags k e2 hl

theorem cacheInv_foldl_remove :
    ∀ (ks : List String) (st : CacheState), CacheInv st →
      CacheInv (ks.foldl remove_entry st)
  | [], st, h => h
  | k :: rest, st, h => by
      rw [List.foldl_cons]
      exact cacheInv_foldl_remove rest _ (cacheInv_remove_entry st k h)

theorem cacheInv_set_core (st1 : CacheState) (key : String) (E : CacheEntry)
    (td : List String) (hkey1 : alookup st1.cache key = none)
    (hE : E.tags = td) (hnd : td.Nodup) (h : CacheInv st1) (st' : CacheState)
    (hc : st'.cache = aset st1.cache key E)
    (ht : st'.tag_index = td.foldl
      (fun ti tag => aset ti tag (addKey ((alookup ti tag).getD []) key))
      st1.tag_index) :
    CacheInv st' := by
  obtain ⟨⟨h1, h2⟩, hks, htags⟩ := h
  simp only [CacheInv, TagConsistent, hc, ht]
  refine ⟨⟨?_, ?_⟩, ?_, ?_⟩
  · intro tag ks hl k hk
    rw [alookup_foldl_addTag key td st1.tag_index tag hnd] at hl
    by_cases hmem : tag ∈ td
    · rw [if_pos hmem] at hl
      have hksv : ks = addKey ((alookup st1.tag_index tag).getD []) key :=
        (Option.some_inj.mp hl).symm
      subst hksv
      rcases (mem_addKey _ _ _).mp hk with hmem2 | hkeq
      · cases hti : alookup st1.tag_index tag with
        | none => rw [hti] at hmem2; simp at hmem2
        | some ks0 =>
            rw [hti] at hmem2
            simp only [Option.getD_some] at hmem2
            obtain ⟨e2, he2, ht2⟩ := h1 tag ks0 hti k hmem2
            have hkne : k ≠ key := by
              intro hkeq
              rw [hkeq, hkey1] at he2
              exact Option.noConfusion he2
            exact ⟨e2, by rw [alookup_aset_ne _ _ _ _ hkne]; exact he2, ht2⟩
      · subst hkeq
        exact ⟨E, alookup_aset_self _ _ _, by rw [hE]; exact hmem⟩
    · rw [if_neg hmem] at hl
      obtain ⟨e2, he2, ht2⟩ := h1 tag ks hl k hk
      have hkne : k ≠ key := by
        intro hkeq
        rw [hkeq, hkey1] at he2
        exact Option.noConfusion he2
      exact ⟨e2, by rw [alookup_aset_ne _ _ _ _ hkne]; exact he2, ht2⟩
  · intro k e2 hl tag ht2
    by_cases hkey : k = key
    · subst hkey
      rw [alookup_aset_self] at hl
      have he2 : e2 = E := Option.some_inj.mp hl.symm
      subst he2
      rw [hE] at ht2
      rw [alookup_foldl_addTag k td st1.tag_index tag hnd, if_pos ht2]
      exact ⟨_, rfl, self_mem_addKey _ _⟩
    · rw [alookup_aset_ne _ _ _ _ hkey] at hl
      obtain ⟨ks, hks', hkk⟩ := h2 k e2 hl tag ht2
      rw [alookup_foldl_addTag key td st1.tag_index tag hnd]
      by_cases hmem : tag ∈ td
      · rw [if_pos hmem]
        exact ⟨_, rfl, by
          rw [hks', Option.getD_some, mem_addKey]
          exact Or.inl hkk⟩
      · rw [if_neg hmem]
        exact ⟨ks, hks', hkk⟩
  · intro tag ks hl
    rw [alookup_foldl_addTag key td st1.tag_index tag hnd] at hl
    by_cases hmem : tag ∈ td
    · rw [if_pos hmem] at hl
      have hksv : ks = addKey ((alookup st1.tag_index tag).getD []) key :=
        (Option.some_inj.mp hl).symm
      subst hksv
      refine nodup_addKey _ _ ?_
      cases hti : alookup st1.tag_index tag with
      | none => simp
      | some ks0 => simpa using hks tag ks0 hti
    · rw [if_neg hmem] at hl
      exact hks tag ks hl
  · intro k e2 hl
    by_cases hkey : k = key
    · subst hkey
      rw [alookup_aset_self] at hl
      have he2 : e2 = E := Option.some_inj.mp hl.symm
      subst he2
      rw [hE]
      exact hnd
    · rw [alookup_aset_ne _ _ _ _ hkey] at hl
      exact htags k e2 hl

theorem cacheInv_cache_set (st : CacheState) (key : String) (data : JValue)
    (strategy : CacheStrategy) (tags : List String) (now : ℚ)
    (h : CacheInv st) : CacheInv (cache_set st key data strategy tags now).2 := by
  by_cases hs : strategy = CacheStrategy.no_cache
  · simpa [cache_set, hs] using h
  · rw [cache_set, if_neg hs]
    have h1inv : CacheInv
        (if (alookup st.cache key).isSome then remove_entry st key else st) := by
      by_cases hsome : (alookup st.cache key).isSome
      · rw [if_pos hsome]; exact cacheInv_remove_entry st key h
      · rw [if_neg hsome]; exact h
    have hkey1 : alookup
        (if (alookup st.cache key).isSome then remove_entry st key else st).cache
          key = none := by
      by_cases hsome : (alookup st.cache key).isSome
      · rw [if_pos hsome, remove_entry_cache, if_pos rfl]
      · rw [if_neg hsome]
        exact Option.not_isSome_iff_eq_none.mp hsome
    exact cacheInv_set_core _ key _ tags.dedup hkey1 rfl tags.nodup_dedup h1inv
      _ rfl rfl

theorem cacheInv_update_entry (st : CacheState) (key : String) (e e' : CacheEntry)
    (hl : alookup st.cache key = some e) (htagse : e'.tags = e.tags)
    (h : CacheInv st) (st' : CacheState)
    (hc : st'.cache = aset st.cache key e') (ht : st'.tag_index = st.tag_index) :
    CacheInv st' := by
  obtain ⟨⟨h1, h2⟩, hks, htags⟩ := h
  simp only [CacheInv, TagConsistent, hc, ht]
  refine ⟨⟨?_, ?_⟩, ?_, ?_⟩
  · intro tag ks hlks k hk
    obtain ⟨e2, he2, ht2⟩ := h1 tag ks hlks k hk
    by_cases hkey : k = key
    · subst hkey
      rw [hl] at he2
      have : e2 = e := Option.some_inj.mp he2.symm
      subst this
      exact ⟨e', alookup_aset_self _ _ _, by rw [htagse]; exact ht2⟩
    · exact ⟨e2, by rw [alookup_aset_ne _ _ _ _ hkey]; exact he2, ht2⟩
  · intro k e2 hl2 tag ht2
    by_cases hkey : k = key
    · subst hkey
      rw [alookup_aset_self] at hl2
      have : e2 = e' := Option.some_inj.mp hl2.symm
      subst this
      rw [htagse] at ht2
      exact h2 k e hl tag ht2
    · rw [alookup_aset_ne _ _ _ _ hkey] at hl2
      exact h2 k e2 hl2 tag ht2
  · exact hks
  · intro k e2 hl2
    by_cases hkey : k = key
    · subst hkey
      rw [alookup_aset_self] at hl2
      have : e2 = e' := Option.some_inj.mp hl2.symm
      subst this
      rw [htagse]
      exact htags k e hl
    · rw [alookup_aset_ne _ _ _ _ hkey] at hl2
      exact htags k e2 hl2

theorem cacheInv_cache_get (st : CacheState) (key : String) (now : ℚ)
    (h : CacheInv st) : CacheInv (cache_get st key now).2 := by
  cases hc : alookup st.cache key with
  | none =>
      have hst : (cache_get st key now).2 = { st with misses := st.misses + 1 } := by
        simp [cache_get, hc]
      rw [hst]
      exact cacheInv_of_same_maps st _ rfl rfl h
  | some e =>
      by_cases he : is_expired now e
      · have hst : (cache_get st key now).2 =
            { remove_entry st key with misses := (remove_entry st key).misses + 1 } := by
          simp [cache_get, hc, he]
        rw [hst]
        exact cacheInv_of_same_maps (remove_entry st key) _ rfl rfl
          (cacheInv_remove_entry st key h)
      · have hst : (cache_get st key now).2 =
            { st with
               cache := aset st.cache key
                 { e with access_count := e.access_count + 1, last_accessed := now }
               hits := st.hits + 1 } := by
          simp [cache_get, hc, he]
        rw [hst]
        exact cacheInv_update_entry st key e
          { e with access_count := e.access_count + 1, last_accessed := now }
          hc rfl h _ rfl rfl

theorem cacheInv_invalidate_by_key (st : CacheState) (key : String)
    (h : CacheInv st) : CacheInv (invalidate_by_key st key).2 := by
  rw [invalidate_by_key]
  by_cases hsome : (alookup st.cache key).isSome
  · rw [if_pos hsome]
    exact cacheInv_of_same_maps (remove_entry st key) _ rfl rfl
      (cacheInv_remove_entry st key h)
  · rw [if_neg hsome]
    exact h

theorem cacheInv_invalidate_by_tag (st : CacheState) (tag : String)
    (h : CacheInv st) : CacheInv (invalidate_by_tag st tag).2 := by
  rw [invalidate_by_tag]
  cases hti : alookup st.tag_index tag with
  | none => exact h
  | some ks =>
      exact cacheInv_of_same_maps (ks.foldl remove_entry st) _ rfl rfl
        (cacheInv_foldl_remove ks st h)

theorem cacheInv_invalidate_by_pattern (st : CacheState) (pat : String)
    (h : CacheInv st) : CacheInv (invalidate_by_pattern st pat).2 := by
  rw [invalidate_by_pattern]
  exact cacheInv_of_same_maps ((patternKeys st pat).foldl remove_entry st) _ rfl rfl
    (cacheInv_foldl_remove _ st h)

theorem cacheInv_clear_all (st : CacheState) (_h : CacheInv st) :
    CacheInv (clear_all st).2 := by
  refine ⟨⟨?_, ?_⟩, ?_, ?_⟩ <;> intro a b hab <;> simp [clear_all] at hab

theorem cacheInv_cleanup_expired (st : CacheState) (now : ℚ) (h : CacheInv st) :
    CacheInv (cleanup_expired st now) := by
  refine cacheInv_of_same_maps
    (((st.cache.filter (fun p => is_expired now p.2)).map Prod.fst).foldl
      remove_entry st) _ ?_ ?_ (cacheInv_foldl_remove _ st h) <;>
  simp [cleanup_expired]

theorem cacheInv_enforce_size_limit (st : CacheState) (h : CacheInv st) :
    CacheInv (enforce_size_limit st) := by
  by_cases hlen : st.cache.length ≤ max_cache_size
  · have hst : enforce_size_limit st = st := by simp [enforce_size_limit, hlen]
    rw [hst]; exact h
  · refine cacheInv_of_same_maps
      ((((sortBy (fun a b => decide (a.2.last_accessed ≤ b.2.last_accessed))
          st.cache).take (st.cache.length - max_cache_size)).map Prod.fst).foldl
        remove_entry st) _ ?_ ?_ (cacheInv_foldl_remove _ st h) <;>
    simp [enforce_size_limit, hlen]

theorem cacheInv_step (st : CacheState) (op : CacheOp) (h : CacheInv st) :
    CacheInv (cacheStep st op) := by
  cases op with
  | opSet k d s ts now => exact cacheInv_cache_set st k d s ts now h
  | opGet k now => exact cacheInv_cache_get st k now h
  | opInvalidateByKey k => exact cacheInv_invalidate_by_key st k h
  | opInvalidateByTag t => exact cacheInv_invalidate_by_tag st t h
  | opInvalidateByPattern p => exact cacheInv_invalidate_by_pattern st p h
  | opClearAll => exact cacheInv_clear_all st h
  | opCleanupExpired now => exact cacheInv_cleanup_expired st now h
  | opEnforceSizeLimit => exact cacheInv_enforce_size_limit st h

theorem cacheInv_initial : CacheInv initialCacheState := by
  refine ⟨⟨?_, ?_⟩, ?_, ?_⟩ <;> intro a b hab <;> simp [initialCacheState] at hab

theorem cacheInv_foldl_step :
    ∀ (ops : List CacheOp) (st : CacheState), CacheInv st →
      CacheInv (ops.foldl cacheStep st)
  | [], _, h => h
  | op :: rest, st, h => by
      rw [List.foldl_cons]
      exact cacheInv_foldl_step rest _ (cacheInv_step st op h)

/-- Claim C6: after any sequence of cache operations (set, get, the
three invalidation forms, clear-all, the TTL sweep and size-limit
eviction) starting from the empty store, the tag index and the entry
map are mutually consistent: every key indexed under a tag `t` exists
in the entry map and carries `t` in its own tag set, and every tag of a
stored entry is indexed to a set containing that entry's key. -/
theorem C6_tag_index_consistent (ops : List CacheOp) :
    TagConsistent (cacheRun ops) :=
  (cacheInv_foldl_step ops initialCacheState cacheInv_initial).1

theorem cache_set_lookup_self (st : CacheState) (key : String) (data : JValue)
    (strategy : CacheStrategy) (tags : List String) (now : ℚ)
    (hs : strategy ≠ CacheStrategy.no_cache) :
    alookup (cache_set st key data strategy tags now).2.cache key =
      some { key := key, data := data, timestamp := now,
             ttl_seconds := get_ttl_seconds strategy, access_count := 0,
             last_accessed := now, tags := tags.dedup } := by
  rw [cache_set, if_neg hs]
  exact alookup_aset_self _ _ _

theorem cache_get_hit (st : CacheState) (key : String) (t : ℚ) (e : CacheEntry)
    (hl : alookup st.cache key = some e) (he : is_expired t e = false) :
    (cache_get st key t).1 = some e.data := by
  simp [cache_get, hl, he]

theorem cache_get_expired (st : CacheState) (key : String) (t : ℚ) (e : CacheEntry)
    (hl : alookup st.cache key = some e) (he : is_expired t e = true) :
    (cache_get st key t).1 = none ∧
      alookup (cache_get st key t).2.cache key = none := by
  refine ⟨by simp [cache_get, hl, he], ?_⟩
  have hst : (cache_get st key t).2.cache = (remove_entry st key).cache := by
    simp [cache_get, hl, he]
  rw [hst, remove_entry_cache, if_pos rfl]

/-- Claim C7: for the three time-limited TTL policies, an entry stored
at time `T` is a hit at every read time `t ≤ T + ttl` and a miss at
every `t > T + ttl` (the boundary instant itself is a hit, because
`is_expired` uses a strict comparison); on such a miss the entry is
evicted at that very `get` (lazy expiry, independent of the periodic
sweep); an entry stored under the `Persistent` policy is never
time-expired. -/
theorem C7_ttl_hit_miss_boundary (st : CacheState) (key : String) (data : JValue)
    (tags : List String) (strategy : CacheStrategy) (T t : ℚ)
    (hs : strategy = CacheStrategy.short_term ∨
          strategy = CacheStrategy.medium_term ∨
          strategy = CacheStrategy.long_term) :
    (t ≤ T + ((get_ttl_seconds strategy : Int) : ℚ) →
      (cache_get (cache_set st key data strategy tags T).2 key t).1 = some data) ∧
    (t > T + ((get_ttl_seconds strategy : Int) : ℚ) →
      (cache_get (cache_set st key data strategy tags T).2 key t).1 = none ∧
      alookup (cache_get (cache_set st key data strategy tags T).2 key t).2.cache
        key = none) ∧
    (cache_get (cache_set st key data CacheStrategy.persistent tags T).2 key t).1 =
      some data := by
  have hsn : strategy ≠ CacheStrategy.no_cache := by
    rcases hs with h | h | h <;> subst h <;> intro hcontra <;> cases hcontra
  have httl : 0 < get_ttl_seconds strategy := by
    rcases hs with h | h | h <;> subst h <;> norm_num [get_ttl_seconds]
  have hlook := cache_set_lookup_self st key data strategy tags T hsn
  refine ⟨?_, ?_, ?_⟩
  · intro hle
    refine cache_get_hit _ key t _ hlook ?_
    rw [is_expired]
    dsimp only
    rw [if_neg (not_le.mpr httl), decide_eq_false_iff_not]
    intro hgt
    linarith
  · intro hgt
    refine cache_get_expired _ key t _ hlook ?_
    rw [is_expired]
    dsimp only
    rw [if_neg (not_le.mpr httl), decide_eq_true_eq]
    linarith
  · have hlookp := cache_set_lookup_self st key data CacheStrategy.persistent tags T
      (by intro hcontra; cases hcontra)
    refine cache_get_hit _ key t _ hlookp ?_
    rw [is_expired]
    dsimp only
    norm_num [get_ttl_seconds]

/-- Concrete instance of claim C7: a `ShortTerm` (30 s) entry stored at
time 0 is still a hit when read exactly at the 30-second boundary. -/
theorem C7_ttl_hit_miss_boundary_witness :
    (cache_get
      (cache_set initialCacheState "k" (JValue.num 1) CacheStrategy.short_term
        [] 0).2 "k" 30).1 = some (JValue.num 1) :=
  (C7_ttl_hit_miss_boundary initialCacheState "k" (JValue.num 1) []
      CacheStrategy.short_term 0 30 (Or.inl rfl)).1
    (by norm_num [get_ttl_seconds])

theorem mem_insertSorted {α : Type} (le : α → α → Bool) (x : α) :
    ∀ (l : List α) (z : α), z ∈ insertSorted le x l ↔ z = x ∨ z ∈ l
  | [], z => by simp [insertSorted]
  | y :: ys, z => by
      rw [insertSorted]
      by_cases h : le x y
      · simp [h]
        try tauto
      · simp [h, mem_insertSorted le x ys z]
        try tauto

theorem length_insertSorted {α : Type} (le : α → α → Bool) (x : α) :
    ∀ l : List α, (insertSorted le x l).length = l.length + 1
  | [] => rfl
  | y :: ys => by
      rw [insertSorted]
      by_cases h : le x y
      · simp [h]
      · simp [h, length_insertSorted le x ys]

theorem length_sortBy {α : Type} (le : α → α → Bool) :
    ∀ l : List α, (sortBy le l).length = l.length
  | [] => rfl
  | x :: xs => by
      rw [sortBy, length_insertSorted, length_sortBy le xs, List.length_cons]

theorem insertSorted_of_all_le {α : Type} (le : α → α → Bool) (x : α)
    (l : List α) (h : ∀ z ∈ l, le x z = true) : insertSorted le x l = x :: l := by
  cases l with
  | nil => rfl
  | cons y ys => rw [insertSorted, if_pos (h y (by simp))]

theorem insertSorted_pairwise {α : Type} (le : α → α → Bool)
    (htot : ∀ a b, le a b = false → le b a = true)
    (htrans : ∀ a b c, le a b = true → le b c = true → le a c = true) (x : α) :
    ∀ l : List α, l.Pairwise (fun a b => le a b = true) →
      (insertSorted le x l).Pairwise (fun a b => le a b = true)
  | [], _ => by simp [insertSorted]
  | y :: ys, h => by
      obtain ⟨h1, h2⟩ := List.pairwise_cons.mp h
      rw [insertSorted]
      by_cases hxy : le x y
      · rw [if_pos hxy]
        refine List.pairwise_cons.mpr ⟨?_, h⟩
        intro z hz
        rcases (by simpa using hz) with hz | hz
        · subst hz; exact hxy
        · exact htrans x y z hxy (h1 z hz)
      · rw [if_neg hxy]
        refine List.pairwise_cons.mpr ⟨?_, insertSorted_pairwise le htot htrans x ys h2⟩
        intro z hz
        rcases (mem_insertSorted le x ys z).mp hz with hz | hz
        · subst hz
          exact htot z y (by simpa using hxy)
        · exact h1 z hz

theorem sortBy_pairwise {α : Type} (le : α → α → Bool)
    (htot : ∀ a b, le a b = false → le b a = true)
    (htrans : ∀ a b c, le a b = true → le b c = true → le a c = true) :
    ∀ l : List α, (sortBy le l).Pairwise (fun a b => le a b = true)
  | [] => by simp [sortBy]
  | x :: xs => by
      rw [sortBy]
      exact insertSorted_pairwise le htot htrans x _
        (sortBy_pairwise le htot htrans xs)

theorem filter_insertSorted {α : Type} (le : α → α → Bool)
    (htot : ∀ a b, le a b = false → le b a = true)
    (htrans : ∀ a b c, le a b = true → le b c = true → le a c = true)
    (p : α → Bool) (x : α) :
    ∀ l : List α, l.Pairwise (fun a b => le a b = true) →
      (insertSorted le x l).filter p =
        if p x then insertSorted le x (l.filter p) else l.filter p
  | [], _ => by
      by_cases hp : p x <;> simp [insertSorted, hp]
  | y :: ys, h => by
      obtain ⟨h1, h2⟩ := List.pairwise_cons.mp h
      rw [insertSorted]
      by_cases hxy : le x y
      · rw [if_pos hxy]
        by_cases hpx : p x
        · by_cases hpy : p y
          · simp [List.filter_cons, hpx, hpy, insertSorted, hxy]
          · simp only [List.filter_cons, hpx, hpy, if_pos, if_neg,
              Bool.false_eq_true, if_true, if_false]
            rw [insertSorted_of_all_le le x (ys.filter p)]
            intro z hz
            exact htrans x y z hxy (h1 z (List.mem_of_mem_filter hz))
        · simp [List.filter_cons, hpx]
      · rw [if_neg hxy]
        by_cases hpy : p y
        · by_cases hpx : p x
          · simp only [List.filter_cons, hpy, hpx, if_true,
              filter_insertSorted le htot htrans p x ys h2, insertSorted, hxy,
              Bool.false_eq_true, if_false]
          · simp only [List.filter_cons, hpy, hpx, if_true,
              filter_insertSorted le htot htrans p x ys h2,
              Bool.false_eq_true, if_false]
        · by_cases hpx : p x
          · simp only [List.filter_cons, hpy, hpx, if_true,
              filter_insertSorted le htot htrans p x ys h2,
              Bool.false_eq_true, if_false]
          · simp only [List.filter_cons, hpy, hpx,
              filter_insertSorted le htot htrans p x ys h2,
              Bool.false_eq_true, if_false]

theorem filter_sortBy {α : Type} (le : α → α → Bool)
    (htot : ∀ a b, le a b = false → le b a = true)
    (htrans : ∀ a b c, le a b = true → le b c = true → le a c = true)
    (p : α → Bool) :
    ∀ l : List α, (sortBy le l).filter p = sortBy le (l.filter p)
  | [] => rfl
  | x :: xs => by
      rw [sortBy, filter_insertSorted le htot htrans p x _
        (sortBy_pairwise le htot htrans xs), List.filter_cons]
      by_cases hpx : p x
      · rw [if_pos hpx, if_pos hpx, sortBy,
          filter_sortBy le htot htrans p xs]
      · rw [if_neg hpx, if_neg (by simpa using hpx),
          filter_sortBy le htot htrans p xs]

/-- Python `"&".join` on a list of strings. -/
def joinAmp : List String → String
  | [] => ""
  | [x] => x
  | x :: y :: rest => x ++ "&" ++ joinAmp (y :: rest)

/-- Ascending comparison of keyword parameters by name, as performed by
Python's `sorted(kwargs.items())` (keyword names are distinct, so the
tuple comparison never reaches the values). -/
def paramLe (a b : String × Option String) : Bool := strLe a.1 b.1

/-- Translation of `KubernetesCacheManager._generate_cache_key`
(`cache_manager.py`, lines 134-149).  A parameter value `none` models
Python `None`.  The SHA-256 hex digest used to shorten long keys is a
standard-library collaborator that is not part of `src`, so it is
passed in abstractly as `hashHex`. -/
def generate_cache_key (hashHex : String → String) (keyPrefix : String)
    (params : List (String × Option String)) : String :=
  let param_str := joinAmp ((sortBy paramLe params).filterMap
    (fun kv => kv.2.map (fun v => kv.1 ++ "=" ++ v)))
  let key_str := if param_str = "" then keyPrefix else keyPrefix ++ "?" ++ param_str
  if key_str.length > 200 then keyPrefix ++ ":" ++ (hashHex key_str).take 16
  else key_str

/-- The key-derivation contract written from the spec's words, as
amended by claim C9's counterexample: parameters that are absent
(Python `None`) are omitted — a parameter with an empty string value is
kept as `k=` — the remaining parameters are joined as `k=v` pairs in
lexicographic name order behind `prefix?`, the prefix stands alone when
every parameter is absent, and a result longer than 200 characters is
replaced by the prefix, a colon, and the first 16 hex characters of the
hash of the full string. -/
def spec_cache_key (hashHex : String → String) (keyPrefix : String)
    (params : List (String × Option String)) : String :=
  let kept := params.filter (fun kv => kv.2.isSome)
  let full :=
    if kept.isEmpty then keyPrefix
    else keyPrefix ++ "?" ++
      joinAmp ((sortBy paramLe kept).map (fun kv => kv.1 ++ "=" ++ kv.2.getD ""))
  if full.length > 200 then keyPrefix ++ ":" ++ (hashHex full).take 16 else full

theorem charListLe_total :
    ∀ a b : List Char, charListLe a b = false → charListLe b a = true
  | [], _, h => by simp [charListLe] at h
  | _ :: _, [], _ => by simp [charListLe]
  | a :: as, b :: bs, h => by
      by_cases hab : a.toNat < b.toNat
      · simp [charListLe, hab] at h
      · by_cases hba : b.toNat < a.toNat
        · simp [charListLe, hba]
        · have hrec : charListLe as bs = false := by
            simpa [charListLe, hab, hba] using h
          simpa [charListLe, hab, hba] using charListLe_total as bs hrec

theorem charListLe_trans :
    ∀ a b c : List Char, charListLe a b = true → charListLe b c = true →
      charListLe a c = true
  | [], _, _, _, _ => by simp [charListLe]
  | _ :: _, [], _, h1, _ => by simp [charListLe] at h1
  | _ :: _, _ :: _, [], _, h2 => by simp [charListLe] at h2
  | a :: as, b :: bs, c :: cs, h1, h2 => by
      by_cases hab : a.toNat < b.toNat
      · by_cases hbc : b.toNat < c.toNat
        · simp [charListLe, show a.toNat < c.toNat by omega]
        · by_cases hcb : c.toNat < b.toNat
          · simp [charListLe, hbc, hcb] at h2
          · simp [charListLe, show a.toNat < c.toNat by omega]
      · by_cases hba : b.toNat < a.toNat
        · simp [charListLe, hab, hba] at h1
        · by_cases hbc : b.toNat < c.toNat
          · simp [charListLe, show a.toNat < c.toNat by omega]
          · by_cases hcb : c.toNat < b.toNat
            · simp [charListLe, hbc, hcb] at h2
            · have h1' : charListLe as bs = true := by
                simpa [charListLe, hab, hba] using h1
              have h2' : charListLe bs cs = true := by
                simpa [charListLe, hbc, hcb] using h2
              simpa [charListLe, show ¬a.toNat < c.toNat by omega,
                show ¬c.toNat < a.toNat by omega] using
                charListLe_trans as bs cs h1' h2'

theorem paramLe_total (a b : String × Option String) :
    paramLe a b = false → paramLe b a = true :=
  charListLe_total a.1.data b.1.data

theorem paramLe_trans (a b c : String × Option String) :
    paramLe a b = true → paramLe b c = true → paramLe a c = true :=
  charListLe_trans a.1.data b.1.data c.1.data

theorem filterMap_params (l : List (String × Option String)) :
    l.filterMap (fun kv => kv.2.map (fun v => kv.1 ++ "=" ++ v)) =
      (l.filter (fun kv => kv.2.isSome)).map
        (fun kv => kv.1 ++ "=" ++ kv.2.getD "") := by
  induction l with
  | nil => rfl
  | cons kv rest ih =>
      obtain ⟨k, v⟩ := kv
      cases v with
      | none => simpa [List.filterMap_cons, List.filter_cons] using ih
      | some s => simpa [List.filterMap_cons, List.filter_cons] using ih

theorem pair_piece_ne_empty (a b : String) : a ++ "=" ++ b ≠ "" := by
  intro hcontra
  have hlen := congrArg String.length hcontra
  rw [String.length_append, String.length_append] at hlen
  have h1 : ("=" : String).length = 1 := rfl
  have h0 : ("" : String).length = 0 := rfl
  omega

theorem joinAmp_ne_empty :
    ∀ l : List String, (∀ s ∈ l, s ≠ "") → l ≠ [] → joinAmp l ≠ ""
  | [], _, hne => absurd rfl hne
  | [x], hall, _ => by simpa [joinAmp] using hall x (by simp)
  | x :: y :: rest, _, _ => by
      intro hcontra
      rw [joinAmp] at hcontra
      have hlen := congrArg String.length hcontra
      rw [String.length_append, String.length_append] at hlen
      have h1 : ("&" : String).length = 1 := rfl
      have h0 : ("" : String).length = 0 := rfl
      omega

/-- Claim C9 (amended): the derived cache key follows the amended
contract `spec_cache_key` — names sorted lexicographically, absent
(`None`) parameters omitted while empty-string values are kept as
`k=`, the bare prefix exactly when all parameters are absent, and
hash-truncation past 200 characters. -/
theorem C9_cache_key_follows_contract (hashHex : String → String)
    (keyPrefix : String) (params : List (String × Option String)) :
    generate_cache_key hashHex keyPrefix params =
      spec_cache_key hashHex keyPrefix params := by
  rw [generate_cache_key, spec_cache_key]
  have hpieces : (sortBy paramLe params).filterMap
      (fun kv => kv.2.map (fun v => kv.1 ++ "=" ++ v)) =
      (sortBy paramLe (params.filter (fun kv => kv.2.isSome))).map
        (fun kv => kv.1 ++ "=" ++ kv.2.getD "") := by
    rw [filterMap_params, filter_sortBy paramLe paramLe_total paramLe_trans]
  rw [hpieces]
  by_cases hk : params.filter (fun kv => kv.2.isSome) = []
  · rw [hk]
    simp [joinAmp, sortBy]
  · have hne : joinAmp ((sortBy paramLe
        (params.filter (fun kv => kv.2.isSome))).map
          (fun kv => kv.1 ++ "=" ++ kv.2.getD "")) ≠ "" := by
      refine joinAmp_ne_empty _ ?_ ?_
      · intro s hs
        obtain ⟨kv, _, hkv⟩ := List.mem_map.mp hs
        rw [← hkv]
        exact pair_piece_ne_empty _ _
      · intro hcontra
        have hlen := congrArg List.length hcontra
        rw [List.length_map, length_sortBy] at hlen
        exact hk (List.length_eq_zero.mp (by simpa using hlen))
    rw [if_neg hne]
    have hkeptne : ¬(params.filter (fun kv => kv.2.isSome)).isEmpty = true := by
      simpa [List.isEmpty_iff] using hk
    rw [if_neg hkeptne]

/-- Concrete refutation of claim C9 as stated: a parameter with an
empty string value is not omitted — the derived key keeps it as `ns=`,
so the key is not the bare prefix even though every parameter is
"empty or absent". -/
theorem C9_counterexample :
    generate_cache_key (fun s => s) "config" [("ns", some "")] = "config?ns=" ∧
      "config?ns=" ≠ "config" := by
  constructor
  · rfl
  · decide

/-- `kubernetes_service_enhanced.ResourceType`. -/
inductive ResourceType where
  | deployment : ResourceType
  | daemonset : ResourceType
  | statefulset : ResourceType
  | service : ResourceType
  | configmap : ResourceType
  | secret : ResourceType
deriving DecidableEq

/-- The `.value` string of each `ResourceType` member. -/
def ResourceType.value : ResourceType → String
  | ResourceType.deployment => "deployment"
  | ResourceType.daemonset => "daemonset"
  | ResourceType.statefulset => "statefulset"
  | ResourceType.service => "service"
  | ResourceType.configmap => "configmap"
  | ResourceType.secret => "secret"

/-- Python `k in v` for the dict membership tests of the validators;
non-mapping values have no members. -/
def memberKey (v : JValue) (k : String) : Bool :=
  match v with
  | JValue.obj fs => (alookup fs k).isSome
  | _ => false

/-- The per-container checks of `_validate_pod_template`
(`kubernetes_service_enhanced.py`, lines 169-173). -/
def containerErrors (i : Nat) (c : JValue) : List String :=
  (if memberKey c "name" then []
   else ["Container " ++ toString i ++ " must have a name"]) ++
  (if memberKey c "image" then []
   else ["Container " ++ toString i ++ " must have an image"])

/-- The `enumerate` loop over the container list. -/
def containersErrors (i : Nat) : List JValue → List String
  | [] => []
  | c :: rest => containerErrors i c ++ containersErrors (i + 1) rest

/-- `_validate_pod_template` (`kubernetes_service_enhanced.py`,
lines 157-173); a non-mapping template or pod spec is treated as
lacking the required member. -/
def validate_pod_template (template : JValue) : List String :=
  match template with
  | JValue.obj tf =>
      match alookup tf "spec" with
      | none => ["Pod template must have a spec"]
      | some (JValue.obj ps) =>
          match alookup ps "containers" with
          | some (JValue.arr cs) => containersErrors 0 cs
          | some _ => []
          | none => ["Pod spec must have containers"]
      | some _ => ["Pod spec must have containers"]
  | _ => ["Pod template must have a spec"]

/-- The replicas rule shared by deployments and stateful sets:
`replicas`, when present, must be a non-negative integer (Python bools
count as integers and are never negative). -/
def replicasErrors (spec : JFields) : List String :=
  match alookup spec "replicas" with
  | none => []
  | some (JValue.num n) =>
      if n < 0 then ["Replicas must be a non-negative integer"] else []
  | some (JValue.bool _) => []
  | some _ => ["Replicas must be a non-negative integer"]

/-- `_validate_deployment_spec` (`kubernetes_service_enhanced.py`,
lines 103-121). -/
def validate_deployment_spec (spec : JFields) : List String :=
  replicasErrors spec ++
  (match alookup spec "selector" with
   | none => ["Deployment must have a selector"]
   | some sel =>
       if memberKey sel "matchLabels" then []
       else ["Deployment selector must have matchLabels"]) ++
  (match alookup spec "template" with
   | none => ["Deployment must have a pod template"]
   | some t => validate_pod_template t)

/-- `_validate_daemonset_spec` (`kubernetes_service_enhanced.py`,
lines 123-135). -/
def validate_daemonset_spec (spec : JFields) : List String :=
  (match alookup spec "selector" with
   | none => ["DaemonSet must have a selector"]
   | some sel =>
       if memberKey sel "matchLabels" then []
       else ["DaemonSet selector must have matchLabels"]) ++
  (match alookup spec "template" with
   | none => ["DaemonSet must have a pod template"]
   | some t => validate_pod_template t)

/-- `_validate_statefulset_spec` (`kubernetes_service_enhanced.py`,
lines 137-147). -/
def validate_statefulset_spec (spec : JFields) : List String :=
  replicasErrors spec ++
  (if (alookup spec "serviceName").isSome then []
   else ["StatefulSet must have a serviceName"])

/-- The `enumerate` loop of `_validate_service_spec`. -/
def portsErrors (i : Nat) : List JValue → List String
  | [] => []
  | p :: rest =>
      (if memberKey p "port" then []
       else ["Service port " ++ toString i ++ " must have a port number"]) ++
      portsErrors (i + 1) rest

/-- `_validate_service_spec` (`kubernetes_service_enhanced.py`,
lines 149-155). -/
def validate_service_spec (spec : JFields) : List String :=
  match alookup spec "ports" with
  | some (JValue.arr ps) => portsErrors 0 ps
  | _ => []

/-- `_validate_kubernetes_spec` (`kubernetes_service_enhanced.py`,
lines 84-101): dispatch on the resource kind; kinds without a
validator produce no errors; a non-mapping spec for a validated kind
trips the surrounding `except` clause and is reported as a single
generic validation error. -/
def validate_kubernetes_spec (rt : ResourceType) (spec : JValue) : List String :=
  match spec with
  | JValue.obj fs =>
      match rt with
      | ResourceType.deployment => validate_deployment_spec fs
      | ResourceType.daemonset => validate_daemonset_spec fs
      | ResourceType.statefulset => validate_statefulset_spec fs
      | ResourceType.service => validate_service_spec fs
      | _ => []
  | _ =>
      match rt with
      | ResourceType.configmap => []
      | ResourceType.secret => []
      | _ => ["Validation error: spec must be a mapping"]

/-- The read-only metadata fields stripped by `_sanitize_metadata`
(`kubernetes_service_enhanced.py`, lines 65-82). -/
def readonly_fields : List String :=
  ["uid", "resourceVersion", "generation", "creationTimestamp",
   "deletionTimestamp", "deletionGracePeriodSeconds", "selfLink"]

/-- `_sanitize_metadata`: pop each read-only field, then drop
`managedFields`. -/
def sanitize_metadata (metadata : JFields) : JFields :=
  (readonly_fields ++ ["managedFields"]).foldl aerase metadata

/-- The sanitisation performed by `get_resource_configuration`
(`kubernetes_service_enhanced.py`, lines 242-249): drop the `status`
subtree and sanitise `metadata` when it is a mapping. -/
def sanitize_config (config : JFields) : JFields :=
  let c1 := aerase config "status"
  match alookup c1 "metadata" with
  | some (JValue.obj m) => aset c1 "metadata" (JValue.obj (sanitize_metadata m))
  | _ => c1

/-- One entry of the manager's `config_cache`. -/
structure CachedConfig where
  config : JFields
  timestamp : String
  resource_version : String

/-- One entry of the manager's `rollback_store`. -/
structure RollbackRecord where
  config : JFields
  user : String
  timestamp : String

/-- The mutable state of a `KubernetesConfigManager`. -/
structure ManagerState where
  config_cache : List (String × CachedConfig)
  rollback_store : List (String × RollbackRecord)

/-- One resource held by the cluster collaborator: its raw `to_dict()`
form and its current `resourceVersion`. -/
structure ClusterResource where
  raw : JFields
  resource_version : String

/-- The cluster collaborator, keyed by `kind:namespace:name`. -/
structure Cluster where
  resources : List (String × ClusterResource)

/-- The `{kind}:{namespace}:{name}` key used for the config cache and
rollback keys. -/
def resource_key (rt : ResourceType) (ns name : String) : String :=
  rt.value ++ ":" ++ ns ++ ":" ++ name

/-- `KubernetesConfigManager.get_resource_configuration`
(`kubernetes_service_enhanced.py`, lines 223-267): read the resource
from the collaborator (404 when absent, `ValueError` for unsupported
kinds), sanitise it, cache the sanitised configuration with its
`resourceVersion`, and return it.  Errors carry the exception text. -/
def get_resource_configuration (st : ManagerState) (cluster : Cluster)
    (rt : ResourceType) (ns name : String) (now : String) :
    ManagerState × Except String JFields :=
  match rt with
  | ResourceType.configmap =>
      (st, Except.error ("Unsupported resource type: " ++ rt.value))
  | ResourceType.secret =>
      (st, Except.error ("Unsupported resource type: " ++ rt.value))
  | _ =>
      match alookup cluster.resources (resource_key rt ns name) with
      | none =>
          (st, Except.error ("404: " ++ rt.value ++ " '" ++ name ++
            "' not found in namespace '" ++ ns ++ "'"))
      | some res =>
          let config := sanitize_config res.raw
          let entry : CachedConfig :=
            { config := config, timestamp := now,
              resource_version := res.resource_version }
          ({ st with config_cache := aset st.config_cache (resource_key rt ns name) entry },
           Except.ok config)

/-- `kubernetes_service_enhanced.ConfigurationChange`: one reported
field-level change. -/
structure ConfigurationChange where
  field_path : String
  old_value : Option JValue
  new_value : Option JValue
  change_type : String

/-- `kubernetes_service_enhanced.ConfigurationResult`: the outcome of
an apply call. -/
structure ConfigurationResult where
  success : Bool
  message : String
  applied_changes : List ConfigurationChange
  rollback_data : Option JFields
  validation_errors : List String
  timestamp : String
  user : String
  resource_version : Option String

mutual
/-- Structural equality of embedded Python values, used by the
spec-modelled diff to compare scalars and list elements. -/
def beqJ : JValue → JValue → Bool
  | JValue.null, JValue.null => true
  | JValue.bool a, JValue.bool b => a == b
  | JValue.num a, JValue.num b => a == b
  | JValue.str a, JValue.str b => a == b
  | JValue.arr xs, JValue.arr ys => beqJList xs ys
  | JValue.obj xs, JValue.obj ys => beqJFields xs ys
  | _, _ => false

def beqJList : List JValue → List JValue → Bool
  | [], [] => true
  | x :: xs, y :: ys => beqJ x y && beqJList xs ys
  | _, _ => false

def beqJFields : JFields → JFields → Bool
  | [], [] => true
  | (k, v) :: xs, (k', v') :: ys => k == k' && beqJ v v' && beqJFields xs ys
  | _, _ => false
end

/-- Remove the first element of `ys` equal to `x`, if any. -/
def removeFirstJ (x : JValue) : List JValue → Option (List JValue)
  | [] => none
  | y :: ys =>
      if beqJ x y then some ys
      else (removeFirstJ x ys).map (fun rest => y :: rest)

/-- Order-independent (multiset) equality of two lists of values. -/
def permEqJ : List JValue → List JValue → Bool
  | [], ys => ys.isEmpty
  | x :: xs, ys =>
      match removeFirstJ x ys with
      | none => false
      | some ys' => permEqJ xs ys'

/-- Extend a field path with one more key. -/
def childPath (path k : String) : String :=
  if path = "" then k else path ++ "." ++ k

/-- Modelled from the spec: the change entries emitted for keys present
only in the updated tree (`dictionary_item_added` results of the
external `deepdiff` library, which is not part of `src`). -/
def diffAdded (path : String) (orig upd : JFields) : List ConfigurationChange :=
  (upd.filter (fun kv => (alookup orig kv.1).isNone)).map
    (fun kv => { field_path := childPath path kv.1, old_value := none,
                 new_value := some kv.2, change_type := "added" })

mutual
/-- Modelled from the spec: recursive structural comparison of two
values (spec §4.2 `diff`), standing in for the external `deepdiff`
library used by `_calculate_changes` — nested mappings are compared
field by field, list-valued fields order-independently, scalars by
value. -/
def diffValue (path : String) : JValue → JValue → List ConfigurationChange
  | JValue.obj fa, JValue.obj fb =>
      diffRemMod path fa fb ++ diffAdded path fa fb
  | JValue.arr xs, JValue.arr ys =>
      if permEqJ xs ys then []
      else [{ field_path := path, old_value := some (JValue.arr xs),
              new_value := some (JValue.arr ys), change_type := "modified" }]
  | a, b =>
      if beqJ a b then []
      else [{ field_path := path, old_value := some a, new_value := some b,
              change_type := "modified" }]

/-- Modelled from the spec: the `removed` and `modified` change entries
for the keys of the original tree. -/
def diffRemMod (path : String) : JFields → JFields → List ConfigurationChange
  | [], _ => []
  | (k, v) :: rest, upd =>
      (match alookup upd k with
       | none => [{ field_path := childPath path k, old_value := some v,
                    new_value := none, change_type := "removed" }]
       | some v2 => diffValue (childPath path k) v v2) ++
      diffRemMod path rest upd
end

/-- Modelled from the spec: `KubernetesConfigManager._calculate_changes`
(`kubernetes_service_enhanced.py`, lines 187-221) delegates to the
external `deepdiff` library (not part of `src`); spec §4.2 describes
the comparison it performs, embodied here by `diffRemMod`/`diffAdded`. -/
def calculate_changes (original updated : JFields) : List ConfigurationChange :=
  diffRemMod "" original updated ++ diffAdded "" original updated

/-- The externally observable side effects of one apply call: rollback
snapshots written, cluster writes attempted, and config-cache entries
invalidated (deleted). -/
structure ApplyEffects where
  rollback_writes : List (String × RollbackRecord)
  patches : List (String × JFields)
  cache_invalidations : List String

def noEffects : ApplyEffects :=
  { rollback_writes := [], patches := [], cache_invalidations := [] }

/-- `KubernetesConfigManager.update_resource_configuration`
(`kubernetes_service_enhanced.py`, lines 269-399).  `patchResult`
models the collaborator's response to the patch call: a new
`resourceVersion`, or the status of an `ApiException` (mapped by the
handler at lines 375-387 to an HTTP error, the `Except.error` case of
the outcome).  A fetch failure is swallowed by the generic handler at
line 389 and reported as a failure result.  All clock reads are the
single instant `now`. -/
def update_resource_configuration (st : ManagerState) (cluster : Cluster)
    (patchResult : Except Nat String) (rt : ResourceType) (ns name : String)
    (new_config : JFields) (user : String) (dry_run : Bool) (now : String) :
    ManagerState × ApplyEffects × Except Nat ConfigurationResult :=
  let fetched := get_resource_configuration st cluster rt ns name now
  let st1 := fetched.1
  match fetched.2 with
  | Except.error msg =>
      (st1, noEffects, Except.ok
        { success := false, message := "Failed to update configuration: " ++ msg,
          applied_changes := [], rollback_data := none,
          validation_errors := [msg], timestamp := now, user := user,
          resource_version := none })
  | Except.ok current_config =>
      let validation_errors :=
        match alookup new_config "spec" with
        | some spec => validate_kubernetes_spec rt spec
        | none => []
      if validation_errors ≠ [] ∧ dry_run = false then
        (st1, noEffects, Except.ok
          { success := false, message := "Configuration validation failed",
            applied_changes := [], rollback_data := none,
            validation_errors := validation_errors, timestamp := now,
            user := user, resource_version := none })
      else
        let changes := calculate_changes current_config new_config
        if dry_run then
          (st1, noEffects, Except.ok
            { success := true, message := "Dry run completed successfully",
              applied_changes := changes, rollback_data := some current_config,
              validation_errors := validation_errors, timestamp := now,
              user := user, resource_version := none })
        else
          let rollback_key := resource_key rt ns name ++ ":" ++ now
          let record : RollbackRecord :=
            { config := current_config, user := user, timestamp := now }
          let st2 := { st1 with rollback_store := aset st1.rollback_store rollback_key record }
          let merged_config := deep_merge_dict current_config new_config
          match patchResult with
          | Except.error status =>
              (st2,
               { rollback_writes := [(rollback_key, record)],
                 patches := [(resource_key rt ns name, merged_config)],
                 cache_invalidations := [] },
               Except.error status)
          | Except.ok newVersion =>
              let cache_key := resource_key rt ns name
              let hadKey := (alookup st2.config_cache cache_key).isSome
              let st3 :=
                if hadKey then { st2 with config_cache := aerase st2.config_cache cache_key }
                else st2
              (st3,
               { rollback_writes := [(rollback_key, record)],
                 patches := [(cache_key, merged_config)],
                 cache_invalidations := if hadKey then [cache_key] else [] },
               Except.ok
                 { success := true,
                   message := "Successfully updated " ++ rt.value ++ " '" ++ name ++ "'",
                   applied_changes := changes, rollback_data := some current_config,
                   validation_errors := [], timestamp := now, user := user,
                   resource_version := some newVersion })

theorem get_rollback_store (st : ManagerState) (cluster : Cluster)
    (rt : ResourceType) (ns name now : String) :
    (get_resource_configuration st cluster rt ns name now).1.rollback_store =
      st.rollback_store := by
  cases rt <;> simp only [get_resource_configuration] <;>
    (cases alookup cluster.resources _ <;> rfl)

/-- Claim C4: a real (non-dry-run) apply on an existing resource whose
proposed spec has at least one validation error returns a failure
result carrying the errors and an empty change list, and performs no
rollback-store write, no cluster write, and no cache invalidation. -/
theorem C4_validation_failure_blocks_apply (st : ManagerState) (cluster : Cluster)
    (patchResult : Except Nat String) (rt : ResourceType) (ns name : String)
    (new_config : JFields) (user now : String) (current : JFields)
    (errs : List String)
    (hget : (get_resource_configuration st cluster rt ns name now).2 =
      Except.ok current)
    (herrdef : errs = match alookup new_config "spec" with
      | some spec => validate_kubernetes_spec rt spec
      | none => [])
    (herr : errs ≠ []) :
    (update_resource_configuration st cluster patchResult rt ns name new_config
        user false now).2.2 = Except.ok
      { success := false, message := "Configuration validation failed",
        applied_changes := [], rollback_data := none,
        validation_errors := errs, timestamp := now, user := user,
        resource_version := none } ∧
    (update_resource_configuration st cluster patchResult rt ns name new_config
        user false now).2.1 = noEffects ∧
    (update_resource_configuration st cluster patchResult rt ns name new_config
        user false now).1.rollback_store = st.rollback_store := by
  simp [update_resource_configuration, hget, ← herrdef, herr, noEffects,
    get_rollback_store]

/-- Concrete instance of claim C4: a deployment spec without selector
or template is rejected by a real apply against the example cluster. -/
theorem C4_validation_failure_blocks_apply_witness :
    (update_resource_configuration { config_cache := [], rollback_store := [] }
        { resources := [("deployment:default:web",
            { raw := [("spec", JValue.obj [("replicas", JValue.num 3)])],
              resource_version := "v1" })] }
        (Except.ok "v2") ResourceType.deployment "default" "web"
        [("spec", JValue.obj [])] "alice" false "t0").2.2 = Except.ok
      { success := false, message := "Configuration validation failed",
        applied_changes := [], rollback_data := none,
        validation_errors := ["Deployment must have a selector",
          "Deployment must have a pod template"], timestamp := "t0",
        user := "alice", resource_version := none } :=
  (C4_validation_failure_blocks_apply { config_cache := [], rollback_store := [] }
    { resources := [("deployment:default:web",
        { raw := [("spec", JValue.obj [("replicas", JValue.num 3)])],
          resource_version := "v1" })] }
    (Except.ok "v2") ResourceType.deployment "default" "web"
    [("spec", JValue.obj [])] "alice" "t0"
    [("spec", JValue.obj [("replicas", JValue.num 3)])]
    ["Deployment must have a selector", "Deployment must have a pod template"]
    rfl rfl (by simp)).1

/-- Claim C5: a dry-run apply on an existing resource always succeeds,
reports the computed changes together with every collected validation
error, returns the current (pre-merge) configuration as the rollback
snapshot, and performs no rollback-store write, no cluster write, and
no cache invalidation. -/
theorem C5_dry_run_always_succeeds (st : ManagerState) (cluster : Cluster)
    (patchResult : Except Nat String) (rt : ResourceType) (ns name : String)
    (new_config : JFields) (user now : String) (current : JFields)
    (errs : List String)
    (hget : (get_resource_configuration st cluster rt ns name now).2 =
      Except.ok current)
    (herrdef : errs = match alookup new_config "spec" with
      | some spec => validate_kubernetes_spec rt spec
      | none => []) :
    (update_resource_configuration st cluster patchResult rt ns name new_config
        user true now).2.2 = Except.ok
      { success := true, message := "Dry run completed successfully",
        applied_changes := calculate_changes current new_config,
        rollback_data := some current, validation_errors := errs,
        timestamp := now, user := user, resource_version := none } ∧
    (update_resource_configuration st cluster patchResult rt ns name new_config
        user true now).2.1 = noEffects ∧
    (update_resource_configuration st cluster patchResult rt ns name new_config
        user true now).1.rollback_store = st.rollback_store := by
  simp [update_resource_configuration, hget, ← herrdef, noEffects,
    get_rollback_store]

/-- Concrete instance of claim C5: a dry run whose proposed spec still
has validation errors succeeds anyway and carries those errors. -/
theorem C5_dry_run_always_succeeds_witness :
    (update_resource_configuration { config_cache := [], rollback_store := [] }
        { resources := [("deployment:default:web",
            { raw := [("spec", JValue.obj [("replicas", JValue.num 3)])],
              resource_version := "v1" })] }
        (Except.ok "v2") ResourceType.deployment "default" "web"
        [("spec", JValue.obj [])] "alice" true "t0").2.2 = Except.ok
      { success := true, message := "Dry run completed successfully",
        applied_changes := calculate_changes
          [("spec", JValue.obj [("replicas", JValue.num 3)])]
          [("spec", JValue.obj [])],
        rollback_data := some [("spec", JValue.obj [("replicas", JValue.num 3)])],
        validation_errors := ["Deployment must have a selector",
          "Deployment must have a pod template"], timestamp := "t0",
        user := "alice", resource_version := none } :=
  (C5_dry_run_always_succeeds { config_cache := [], rollback_store := [] }
    { resources := [("deployment:default:web",
        { raw := [("spec", JValue.obj [("replicas", JValue.num 3)])],
          resource_version := "v1" })] }
    (Except.ok "v2") ResourceType.deployment "default" "web"
    [("spec", JValue.obj [])] "alice" "t0"
    [("spec", JValue.obj [("replicas", JValue.num 3)])]
    ["Deployment must have a selector", "Deployment must have a pod template"]
    rfl rfl).1

/-- Claim C1 (amended): whenever an apply reaches the
change-computation step (the resource exists and the call is not
blocked by a real-apply validation failure) and reports a result, the
reported change list equals the diff between the current configuration
and the raw proposed configuration — the diff is computed before the
merge, so fields present in the current configuration but omitted from
a partial proposal are reported as removed. -/
theorem C1_changes_diff_raw_proposed (st : ManagerState) (cluster : Cluster)
    (patchResult : Except Nat String) (rt : ResourceType) (ns name : String)
    (new_config : JFields) (user : String) (dry_run : Bool) (now : String)
    (current : JFields) (r : ConfigurationResult)
    (hget : (get_resource_configuration st cluster rt ns name now).2 =
      Except.ok current)
    (hreach : (match alookup new_config "spec" with
      | some spec => validate_kubernetes_spec rt spec
      | none => []) = [] ∨ dry_run = true)
    (hr : (update_resource_configuration st cluster patchResult rt ns name
      new_config user dry_run now).2.2 = Except.ok r) :
    r.applied_changes = calculate_changes current new_config := by
  rcases hreach with herr | hdry
  · simp only [update_resource_configuration, hget, herr] at hr
    simp at hr
    cases dry_run with
    | true =>
        simp at hr
        rw [← hr]
    | false =>
        simp at hr
        cases patchResult with
        | error status => simp at hr
        | ok v =>
            simp at hr
            rw [← hr]
  · subst hdry
    simp only [update_resource_configuration, hget] at hr
    have hcond : ¬((match alookup new_config "spec" with
        | some spec => validate_kubernetes_spec rt spec
        | none => []) ≠ [] ∧ true = false) := by
      intro hcontra
      exact Bool.noConfusion hcontra.2
    rw [if_neg hcond] at hr
    simp at hr
    rw [← hr]

/-- The example cluster resource used by the concrete C1 instances:
a deployment whose configuration has fields (`apiVersion`, `extra`)
beyond the `spec` subtree. -/
def exampleRaw : JFields :=
  [("apiVersion", JValue.str "apps/v1"),
   ("spec", JValue.obj [("replicas", JValue.num 3)]),
   ("extra", JValue.num 1)]

def exampleCluster : Cluster :=
  { resources := [("deployment:default:web",
      { raw := exampleRaw, resource_version := "v1" })] }

/-- A partial proposed configuration: only the `spec` subtree, equal to
the current one. -/
def exampleProposed : JFields :=
  [("spec", JValue.obj [("replicas", JValue.num 3)])]

/-- Concrete refutation of claim C1 as stated: for a partial proposal
that leaves the current configuration unchanged after merging, the
claim's formula `diff(current, merge(current, proposed))` is empty, yet
the apply call reports the fields missing from the proposal as
`removed` — the code diffs against the raw proposal, not the merge. -/
theorem C1_counterexample :
    (update_resource_configuration { config_cache := [], rollback_store := [] }
        exampleCluster (Except.ok "v2") ResourceType.deployment "default" "web"
        exampleProposed "alice" true "t0").2.2 = Except.ok
      { success := true, message := "Dry run completed successfully",
        applied_changes :=
          [{ field_path := "apiVersion", old_value := some (JValue.str "apps/v1"),
             new_value := none, change_type := "removed" },
           { field_path := "extra", old_value := some (JValue.num 1),
             new_value := none, change_type := "removed" }],
        rollback_data := some exampleRaw,
        validation_errors := ["Deployment must have a selector",
          "Deployment must have a pod template"],
        timestamp := "t0", user := "alice", resource_version := none } ∧
    calculate_changes exampleRaw (deep_merge_dict exampleRaw exampleProposed) =
      [] := by
  constructor
  · rfl
  · rfl

/-- Concrete instance of amended claim C1: the reported changes of the
dry-run apply above are exactly `calculate_changes current proposed`. -/
theorem C1_changes_diff_raw_proposed_witness :
    ({ success := true, message := "Dry run completed successfully",
       applied_changes := calculate_changes exampleRaw exampleProposed,
       rollback_data := some exampleRaw,
       validation_errors := ["Deployment must have a selector",
         "Deployment must have a pod template"],
       timestamp := "t0", user := "alice",
       resource_version := none } : ConfigurationResult).applied_changes =
      calculate_changes exampleRaw exampleProposed :=
  C1_changes_diff_raw_proposed { config_cache := [], rollback_store := [] }
    exampleCluster (Except.ok "v2") ResourceType.deployment "default" "web"
    exampleProposed "alice" true "t0" exampleRaw _ rfl (Or.inr rfl) rfl

/-- `KubernetesCache.set_resource_config` (`cache_manager.py`,
lines 358-361): cache a resource configuration under the derived key
with a `ShortTerm` policy and the tags
`{configurations, namespace:<ns>, type:<kind>}`. -/
def set_resource_config (hashHex : String → String) (st : CacheState)
    (config : JValue) (resource_type ns name : String) (now : ℚ) : CacheState :=
  let key := generate_cache_key hashHex "config"
    [("type", some resource_type), ("namespace", some ns), ("name", some name)]
  (cache_set st key config CacheStrategy.short_term
    ["configurations", "namespace:" ++ ns, "type:" ++ resource_type] now).2

/-- `KubernetesCache.get_resource_config` (`cache_manager.py`,
lines 354-356). -/
def get_resource_config (hashHex : String → String) (st : CacheState)
    (resource_type ns name : String) (now : ℚ) : Option JValue × CacheState :=
  cache_get st (generate_cache_key hashHex "config"
    [("type", some resource_type), ("namespace", some ns), ("name", some name)]) now

/-- `KubernetesCache.invalidate_resource` (`cache_manager.py`,
lines 372-375): invalidate by the pattern
`*type=<kind>*namespace=<ns>*name=<name>*`. -/
def invalidate_resource (st : CacheState) (resource_type ns name : String) :
    Nat × CacheState :=
  invalidate_by_pattern st
    ("*type=" ++ resource_type ++ "*namespace=" ++ ns ++ "*name=" ++ name ++ "*")

/-- Claim C2 evaluated at its failing input: after caching the
configuration of deployment `default/web`, `invalidate_resource` for
that very resource removes nothing — its multi-wildcard pattern falls
into the trailing-`*` branch of `invalidate_by_pattern`, whose prefix
then starts with a literal `*` that no key starts with — so the next
`get_resource_config` still returns the stale cached value. -/
theorem C2_invalidate_resource_misses_entry (hashHex : String → String) :
    (invalidate_resource
        (set_resource_config hashHex initialCacheState (JValue.num 3)
          "deployment" "default" "web" 0) "deployment" "default" "web").1 = 0 ∧
    (get_resource_config hashHex
        (invalidate_resource
          (set_resource_config hashHex initialCacheState (JValue.num 3)
            "deployment" "default" "web" 0) "deployment" "default" "web").2
        "deployment" "default" "web" 1).1 = some (JValue.num 3) := by
  constructor
  · rfl
  · refine cache_get_hit _ _ 1
      { key := generate_cache_key hashHex "config"
          [("type", some "deployment"), ("namespace", some "default"),
           ("name", some "web")],
        data := JValue.num 3, timestamp := 0, ttl_seconds := 30,
        access_count := 0, last_accessed := 0,
        tags := ["configurations", "namespace:default", "type:deployment"] }
      rfl ?_
    rw [is_expired]
    dsimp only
    rw [if_neg (by norm_num), decide_eq_false_iff_not]
    norm_num

/-- One target of a batch request
(`server_enhanced.BatchOperationRequest.resources` element). -/
structure BatchTarget where
  rtype : String
  ns : String
  name : String

/-- The `parameters` dict of a batch request: the fields the
orchestrator reads (`replicas` for scale, `configuration` for config
updates). -/
structure BatchParameters where
  replicas : Option Int
  configuration : Option JFields

/-- `server_enhanced.BatchOperationRequest`. -/
structure BatchOperationRequest where
  resources : List BatchTarget
  operation : String
  parameters : BatchParameters

/-- One element of `BatchOperationResult.results`. -/
structure BatchItemResult where
  resource : BatchTarget
  success : Bool
  message : String

/-- `server_enhanced.BatchOperationResult`. -/
structure BatchOperationResult where
  success : Bool
  results : List BatchItemResult
  failed_count : Nat
  success_count : Nat
  timestamp : String

/-- One iteration of the loop in
`EnhancedKubernetesService.batch_operation` (`server_enhanced.py`,
lines 625-666).  `env` is the single-resource apply collaborator
(`update_resource_configuration` at the service level): it returns the
result's success flag and message, or the text of a raised exception
(caught by the per-item handler).  The second component records the
apply invocations made for this target. -/
def batch_step (env : BatchTarget → JFields → Except String (Bool × String))
    (op : String) (params : BatchParameters) (t : BatchTarget) :
    BatchItemResult × List (BatchTarget × JFields) :=
  if op = "scale" then
    if t.rtype = "deployment" then
      ({ resource := t, success := true,
         message := "Scaled to " ++ toString (params.replicas.getD 1) ++ " replicas" },
       [])
    else
      ({ resource := t, success := false,
         message := "Scaling not supported for this resource type" }, [])
  else if op = "update_config" then
    let config := params.configuration.getD []
    match env t config with
    | Except.ok sm =>
        ({ resource := t, success := sm.1, message := sm.2 }, [(t, config)])
    | Except.error e =>
        ({ resource := t, success := false, message := e }, [(t, config)])
  else
    ({ resource := t, success := false, message := "Unsupported operation" }, [])

/-- The sequential loop of `batch_operation`: per-item results in
target order, success/failure counters, and the recorded apply
invocations. -/
def batch_loop (env : BatchTarget → JFields → Except String (Bool × String))
    (op : String) (params : BatchParameters) :
    List BatchTarget →
      List BatchItemResult × Nat × Nat × List (BatchTarget × JFields)
  | [] => ([], 0, 0, [])
  | t :: rest =>
      let step := batch_step env op params t
      let tail := batch_loop env op params rest
      (step.1 :: tail.1,
       (if step.1.success then 1 else 0) + tail.2.1,
       (if step.1.success then 0 else 1) + tail.2.2.1,
       step.2 ++ tail.2.2.2)

/-- `EnhancedKubernetesService.batch_operation` (`server_enhanced.py`,
lines 620-674). -/
def batch_operation (env : BatchTarget → JFields → Except String (Bool × String))
    (req : BatchOperationRequest) (now : String) :
    BatchOperationResult × List (BatchTarget × JFields) :=
  let loop := batch_loop env req.operation req.parameters req.resources
  ({ success := decide (loop.2.2.1 = 0), results := loop.1,
     failed_count := loop.2.2.1, success_count := loop.2.1, timestamp := now },
   loop.2.2.2)

theorem batch_step_resource (env : BatchTarget → JFields → Except String (Bool × String))
    (op : String) (params : BatchParameters) (t : BatchTarget) :
    (batch_step env op params t).1.resource = t := by
  rw [batch_step]
  split_ifs
  · rfl
  · rfl
  · dsimp only
    cases env t (params.configuration.getD []) <;> rfl
  · rfl

theorem batch_loop_spec (env : BatchTarget → JFields → Except String (Bool × String))
    (op : String) (params : BatchParameters) :
    ∀ ts : List BatchTarget,
      (batch_loop env op params ts).1.map (fun r => r.resource) = ts ∧
      (batch_loop env op params ts).2.1 + (batch_loop env op params ts).2.2.1 =
        ts.length
  | [] => ⟨rfl, rfl⟩
  | t :: rest => by
      obtain ⟨ih1, ih2⟩ := batch_loop_spec env op params rest
      rw [batch_loop]
      refine ⟨?_, ?_⟩
      · simp only [List.map_cons, ih1, batch_step_resource]
      · by_cases hs : (batch_step env op params t).1.success <;>
          simp [hs, List.length_cons] <;> omega

/-- Claim C10: every batch call returns one per-item result per target,
in target order; the success and failure counters sum to the number of
targets; and the batch-level success flag holds exactly when the
failure counter is zero. -/
theorem C10_batch_result_invariants
    (env : BatchTarget → JFields → Except String (Bool × String))
    (req : BatchOperationRequest) (now : String) :
    (batch_operation env req now).1.results.map (fun r => r.resource) =
      req.resources ∧
    (batch_operation env req now).1.success_count +
      (batch_operation env req now).1.failed_count = req.resources.length ∧
    ((batch_operation env req now).1.success = true ↔
      (batch_operation env req now).1.failed_count = 0) := by
  obtain ⟨h1, h2⟩ := batch_loop_spec env req.operation req.parameters req.resources
  exact ⟨h1, h2, by simp [batch_operation]⟩

/-- Claim C3 evaluated on the code: a batch `scale` on a deployment
reports success ("Scaled to 5 replicas") without invoking the
single-resource apply collaborator at all — the scale branch is a stub
— while an unrecognized kind (`scale` on a daemonset) is recorded as a
per-item failure and the remaining targets are still processed. -/
theorem C3_batch_scale_never_invokes_apply
    (env : BatchTarget → JFields → Except String (Bool × String)) (now : String) :
    (batch_operation env
      { resources := [{ rtype := "daemonset", ns := "kube-system", name := "agent" },
                      { rtype := "deployment", ns := "default", name := "web" }],
        operation := "scale",
        parameters := { replicas := some 5, configuration := none } } now).2 = [] ∧
    (batch_operation env
      { resources := [{ rtype := "daemonset", ns := "kube-system", name := "agent" },
                      { rtype := "deployment", ns := "default", name := "web" }],
        operation := "scale",
        parameters := { replicas := some 5, configuration := none } } now).1.results =
      [{ resource := { rtype := "daemonset", ns := "kube-system", name := "agent" },
         success := false,
         message := "Scaling not supported for this resource type" },
       { resource := { rtype := "deployment", ns := "default", name := "web" },
         success := true, message := "Scaled to 5 replicas" }] := by
  constructor
  · rfl
  · rfl
